import Mathlib

/-!
# PlayerControls (three-fps): a shallow embedding

The first-person movement controller of `src/entities/Player/PlayerControls.js`.

* JavaScript numbers are idealised as real numbers (`ℝ`): `Math.sqrt` is `Real.sqrt`,
  `Math.min`/`Math.max` are `min`/`max`, `Math.PI` is `Real.pi`. Where the rounding of doubles
  decides a property (a speed that is to stay at or below `maxSpeed`), the ground movement is
  also given on doubles, in the namespace `Dbl`, and the bounds stated over `ℝ` leave a
  relative tolerance `roundingSlack` for the rounding.
* Mutable objects become fields of one `State` record, methods become functions
  `State → State`.
* The `three` library methods the controller calls (`Vector3`, `Quaternion`) are embedded
  next to it, each one after the library's own implementation.
* The collaborators (`Input`, the physics body, `PlayerPhysics.canJump`, pointer lock) are
  inputs: key states are fields of `Input`, what the collaborators write between two calls of
  the controller is an `Event`.
-/

namespace PlayerControls

noncomputable section

/-! ## three: Vector3 -/

/-- Vector of three numbers, `THREE.Vector3`. -/
@[ext]
structure Vector3 where
  x : ℝ
  y : ℝ
  z : ℝ

/-- Quaternion with components `x y z w`, `THREE.Quaternion`. -/
@[ext]
structure Quaternion where
  x : ℝ
  y : ℝ
  z : ℝ
  w : ℝ

/-- Euler angles, `THREE.Euler` (only the angles, the order is never changed). -/
structure Euler where
  x : ℝ
  y : ℝ
  z : ℝ

/-- JavaScript `l || 1` on a number: `1` when `l` is zero, else `l`. -/
def orOne (l : ℝ) : ℝ := if l = 0 then 1 else l

namespace Vector3

/-- Result of `new THREE.Vector3()`. -/
def zero : Vector3 := ⟨0, 0, 0⟩

/-- Method `length()`: `Math.sqrt(x*x + y*y + z*z)`, in exact arithmetic (`Dbl.Vector3.length`
is the same method on doubles, where the squares round and underflow). -/
def length (v : Vector3) : ℝ := Real.sqrt (v.x * v.x + v.y * v.y + v.z * v.z)

/-- Method `multiplyScalar(s)`. -/
def multiplyScalar (v : Vector3) (s : ℝ) : Vector3 := ⟨v.x * s, v.y * s, v.z * s⟩

/-- Method `divideScalar(s)`: `multiplyScalar(1 / s)`. -/
def divideScalar (v : Vector3) (s : ℝ) : Vector3 := v.multiplyScalar (1 / s)

/-- Method `add(w)`. -/
def add (v w : Vector3) : Vector3 := ⟨v.x + w.x, v.y + w.y, v.z + w.z⟩

/-- Method `normalize()`: `divideScalar(length() || 1)`. -/
def normalize (v : Vector3) : Vector3 := v.divideScalar (orOne v.length)

/-- Method `clampLength(min, max)`:
`divideScalar(length || 1).multiplyScalar(Math.max(min, Math.min(max, length)))`, in exact
arithmetic (`Dbl.Vector3.clampLength` is the same method on doubles, where the two
multiplications round). -/
def clampLength (v : Vector3) (lo hi : ℝ) : Vector3 :=
  let length := v.length
  (v.divideScalar (orOne length)).multiplyScalar (max lo (min hi length))

/-- Method `applyQuaternion(q)`: the vector rotated by `q` (`q * v * q⁻¹` for a unit `q`). -/
def applyQuaternion (v : Vector3) (q : Quaternion) : Vector3 :=
  let ix := q.w * v.x + q.y * v.z - q.z * v.y
  let iy := q.w * v.y + q.z * v.x - q.x * v.z
  let iz := q.w * v.z + q.x * v.y - q.y * v.x
  let iw := -q.x * v.x - q.y * v.y - q.z * v.z
  ⟨ix * q.w + iw * -q.x + iy * -q.z - iz * -q.y,
   iy * q.w + iw * -q.y + iz * -q.x - ix * -q.z,
   iz * q.w + iw * -q.z + ix * -q.y - iy * -q.x⟩

/-- Setter `setX` (of `Vector3` and of Ammo's `btVector3`). -/
def setX (v : Vector3) (a : ℝ) : Vector3 := ⟨a, v.y, v.z⟩

/-- Setter `setY`. -/
def setY (v : Vector3) (a : ℝ) : Vector3 := ⟨v.x, a, v.z⟩

/-- Setter `setZ`. -/
def setZ (v : Vector3) (a : ℝ) : Vector3 := ⟨v.x, v.y, a⟩

end Vector3

/-! ## three: Quaternion -/

namespace Quaternion

/-- Result of `new THREE.Quaternion()`. -/
def identity : Quaternion := ⟨0, 0, 0, 1⟩

/-- Method `setFromAxisAngle(axis, angle)` (the axis is assumed normalised by the library). -/
def setFromAxisAngle (axis : Vector3) (angle : ℝ) : Quaternion :=
  let halfAngle := angle / 2
  let s := Real.sin halfAngle
  ⟨axis.x * s, axis.y * s, axis.z * s, Real.cos halfAngle⟩

/-- Method `multiplyQuaternions(a, b)`: the Hamilton product `a * b`. -/
def multiplyQuaternions (a b : Quaternion) : Quaternion :=
  ⟨a.x * b.w + a.w * b.x + a.y * b.z - a.z * b.y,
   a.y * b.w + a.w * b.y + a.z * b.x - a.x * b.z,
   a.z * b.w + a.w * b.z + a.x * b.y - a.y * b.x,
   a.w * b.w - a.x * b.x - a.y * b.y - a.z * b.z⟩

/-- Method `length()`. -/
def length (q : Quaternion) : ℝ := Real.sqrt (q.x * q.x + q.y * q.y + q.z * q.z + q.w * q.w)

/-- Method `normalize()`: the identity for a zero quaternion, else every component times
`1 / length`. -/
def normalize (q : Quaternion) : Quaternion :=
  let l := q.length
  if l = 0 then ⟨0, 0, 0, 1⟩
  else
    let l := 1 / l
    ⟨q.x * l, q.y * l, q.z * l, q.w * l⟩

end Quaternion

/-! ## The controller -/

/-- Constructor: `this.timeZeroToMax = 0.08`. -/
def timeZeroToMax : ℝ := 0.08

/-- Constructor: `this.maxSpeed = 4.0`. -/
def maxSpeed : ℝ := 4.0

/-- Constructor: `this.acceleration = this.maxSpeed / this.timeZeroToMax`. -/
def acceleration : ℝ := maxSpeed / timeZeroToMax

/-- Constructor: `this.airAcceleration = 1.5`. -/
def airAcceleration : ℝ := 1.5

/-- Constructor: `this.decceleration = -7.0`. -/
def decceleration : ℝ := -7.0

/-- Constructor: `this.mouseSpeed = 0.002`. -/
def mouseSpeed : ℝ := 0.002

/-- Constructor: `this.jumpVelocity = 3`. -/
def jumpVelocity : ℝ := 3

/-- Constructor: `this.yOffset = 0.5`. -/
def yOffset : ℝ := 0.5

/-- Constructor: `this.xAxis = new THREE.Vector3(1.0, 0.0, 0.0)`. -/
def xAxis : Vector3 := ⟨1.0, 0.0, 0.0⟩

/-- Constructor: `this.yAxis = new THREE.Vector3(0.0, 1.0, 0.0)`. -/
def yAxis : Vector3 := ⟨0.0, 1.0, 0.0⟩

/-- Ammo vector `this.zeroVec = new Ammo.btVector3(0.0, 0.0, 0.0)`. -/
def zeroVec : Vector3 := ⟨0.0, 0.0, 0.0⟩

/-- Mutable state the controller reads and writes: its own fields (`speed`, `isLocked`,
`angles`, `pitch`, `yaw`), the entity (`parent.Rotation`, the position given to
`parent.SetPosition`), the camera (`camera.quaternion`, `camera.position`), the physics body
(linear and angular velocity, the origin of its world transform when it has a motion state)
and `physicsComponent.canJump`. The scratch vectors `tempVec` and `moveDir` hold no value
across statements that is read after being overwritten, so they are local values here. -/
structure State where
  speed : Vector3
  isLocked : Bool
  angles : Euler
  pitch : Quaternion
  yaw : Quaternion
  rotation : Quaternion
  cameraQuaternion : Quaternion
  cameraPosition : Vector3
  position : Vector3
  velocity : Vector3
  angularVelocity : Vector3
  motionState : Option Vector3
  canJump : Bool

/-- Modelled from the spec: the key states that `Input.GetKeyDown` reports during one call of
`Update` (the `Input` module is outside the sources at hand; the spec calls it a "boolean
key-down query by key identifier"). -/
structure Input where
  keyW : Bool
  keyA : Bool
  keyS : Bool
  keyD : Bool
  space : Bool

/-- Modelled from the spec: the number `Input.GetKeyDown(code)` contributes to a subtraction,
`1` for a key that is down and `0` otherwise ("two signed unit contributions ... derived from
four boolean key states"). -/
def GetKeyDown (down : Bool) : ℝ := if down then 1 else 0

/-- Handler `OnPointerlockChange`: `isLocked` follows `document.pointerLockElement`. -/
def OnPointerlockChange (pointerLockElement : Bool) (s : State) : State :=
  { s with isLocked := if pointerLockElement then true else false }

/-- Method `UpdateRotation()`. -/
def UpdateRotation (s : State) : State :=
  let pitch := Quaternion.setFromAxisAngle xAxis s.angles.x
  let yaw := Quaternion.setFromAxisAngle yAxis s.angles.y
  let rotation := (Quaternion.multiplyQuaternions yaw pitch).normalize
  { s with pitch := pitch, yaw := yaw, rotation := rotation, cameraQuaternion := rotation }

/-- Handler `OnMouseMove(event)` with `event.movementX`, `event.movementY`. -/
def OnMouseMove (movementX movementY : ℝ) (s : State) : State :=
  if !s.isLocked then s
  else
    let y := s.angles.y - movementX * mouseSpeed
    let x := s.angles.x - movementY * mouseSpeed
    let x := max (-Real.pi / 2) (min (Real.pi / 2) x)
    UpdateRotation { s with angles := ⟨x, y, s.angles.z⟩ }

/-- Method `Accelerate(direction, accelerationFactor, t)`. -/
def Accelerate (direction : Vector3) (accelerationFactor t : ℝ) (s : State) : State :=
  let accel := direction.multiplyScalar (accelerationFactor * t)
  { s with speed := (s.speed.add accel).clampLength 0.0 maxSpeed }

/-- Method `Decelerate(t)`. -/
def Decelerate (t : ℝ) (s : State) : State :=
  let frameDeccel := s.speed.multiplyScalar (decceleration * t)
  { s with speed := s.speed.add frameDeccel }

/-- First lines of `Update`: `forwardFactor`. -/
def forwardFactor (inp : Input) : ℝ := GetKeyDown inp.keyS - GetKeyDown inp.keyW

/-- First lines of `Update`: `rightFactor`. -/
def rightFactor (inp : Input) : ℝ := GetKeyDown inp.keyD - GetKeyDown inp.keyA

/-- First lines of `Update`: `direction = moveDir.set(rightFactor, 0.0, forwardFactor).normalize()`. -/
def direction (inp : Input) : Vector3 :=
  (Vector3.mk (rightFactor inp) 0.0 (forwardFactor inp)).normalize

/-- Air-strafing block of `Update`: `lateralSpeed`, the length of
`tempVec.set(velocity.x(), 0, velocity.z())`. -/
def lateralSpeed (velocity : Vector3) : ℝ := (Vector3.mk velocity.x 0 velocity.z).length

/-- Air-strafing block of `Update`:
`maxAirControl = Math.min(this.maxSpeed - lateralSpeed, this.airAcceleration)`. -/
def maxAirControl (velocity : Vector3) : ℝ :=
  min (maxSpeed - lateralSpeed velocity) airAcceleration

/-- The air-strafing block of `Update`: the body velocity after the nudge. -/
def airStrafe (inp : Input) (t : ℝ) (velocity : Vector3) : Vector3 :=
  if rightFactor inp ≠ 0 ∨ forwardFactor inp ≠ 0 then
    let airControl := (direction inp).multiplyScalar (maxAirControl velocity * t)
    (velocity.setX (velocity.x + airControl.x)).setZ (velocity.z + airControl.z)
  else velocity

/-- Method `Update(t)`, the keys read through `Input` being `inp`. -/
def Update (inp : Input) (t : ℝ) (s : State) : State :=
  let velocity := s.velocity
  let isAirborne := !s.canJump
  let jump := inp.space && s.canJump
  let velocity := if jump then velocity.setY jumpVelocity else velocity
  let s := if jump then { s with canJump := false } else s
  let s := if !isAirborne then Accelerate (direction inp) acceleration t (Decelerate t s) else s
  let velocity := if !isAirborne then velocity else airStrafe inp t velocity
  let moveVector := s.speed.applyQuaternion s.yaw
  let velocity :=
    if !isAirborne then (velocity.setX moveVector.x).setZ moveVector.z else velocity
  let s := { s with velocity := velocity, angularVelocity := zeroVec }
  match s.motionState with
  | some p =>
    let cameraPosition : Vector3 := ⟨p.x, p.y + yOffset, p.z⟩
    { s with cameraPosition := cameraPosition, position := cameraPosition }
  | none => s

/-! ## Traces -/

/-- What happens to the state between and including the calls of the controller: a simulation
tick (`Update`), a mouse event, a pointer-lock change, the physics engine stepping the body,
and the sibling physics component writing `canJump`. -/
inductive Event where
  | tick (inp : Input) (t : ℝ)
  | mouseMove (movementX movementY : ℝ)
  | pointerlockChange (pointerLockElement : Bool)
  | physicsStep (velocity angularVelocity : Vector3) (motionState : Option Vector3)
  | setCanJump (canJump : Bool)

/-- One event applied to the state. -/
def step (s : State) : Event → State
  | .tick inp t => Update inp t s
  | .mouseMove dx dy => OnMouseMove dx dy s
  | .pointerlockChange l => OnPointerlockChange l s
  | .physicsStep v w m => { s with velocity := v, angularVelocity := w, motionState := m }
  | .setCanJump b => { s with canJump := b }

/-- A sequence of events applied in order. -/
def run (s : State) (es : List Event) : State := es.foldl step s

/-- Scalar by which `clampLength(0, hi)` multiplies a vector of length `l`. -/
def clampFactor (hi l : ℝ) : ℝ := 1 / orOne l * max 0 (min hi l)

/-- Mouse events (pairs `movementX`, `movementY`) handled in order. -/
def mouseMoves (s : State) (ms : List (ℝ × ℝ)) : State :=
  ms.foldl (fun s m => OnMouseMove m.1 m.2 s) s

/-- The clamp in the words of the specification: the argument unchanged when its length is at
most `maxSpeed`, otherwise the vector of the same direction with length `maxSpeed`. -/
def clampSpec (w : Vector3) : Vector3 :=
  if w.length ≤ maxSpeed then w else w.multiplyScalar (maxSpeed / w.length)

/-- The grounded tick in the words of the specification:
`clamp(v*(1 + decceleration*dt) + d*acceleration*dt)`. -/
def groundSpec (v d : Vector3) (dt : ℝ) : Vector3 :=
  clampSpec ((v.multiplyScalar (1 + decceleration * dt)).add (d.multiplyScalar (acceleration * dt)))

/-- Grounded ticks repeated `n` times with the same keys and duration, the physics component
reporting ground contact before each of them. -/
def groundedTicks (inp : Input) (dt : ℝ) (n : ℕ) (s : State) : State :=
  (fun s => Update inp dt { s with canJump := true })^[n] s

/-- The events in which `Update` applies the jump (its condition
`Input.GetKeyDown('Space') && this.physicsComponent.canJump` holds), counted along a trace. -/
def jumpCount : State → List Event → ℕ
  | _, [] => 0
  | s, e :: es =>
    (match e with
      | .tick inp _ => if inp.space && s.canJump then 1 else 0
      | _ => 0) + jumpCount (step s e) es

/-- The yaw rotation in the words of the specification: `(0, sin(y/2), 0, cos(y/2))`, the
rotation by `y` about `(0,1,0)`. -/
def yawRotation (y : ℝ) : Quaternion := ⟨0, Real.sin (y / 2), 0, Real.cos (y / 2)⟩

/-- The pitch rotation in the words of the specification: `(sin(p/2), 0, 0, cos(p/2))`, the
rotation by `p` about `(1,0,0)`. -/
def pitchRotation (p : ℝ) : Quaternion := ⟨Real.sin (p / 2), 0, 0, Real.cos (p / 2)⟩

/-- `Accelerate` alone, with the controller's `acceleration`, repeated `n` times. -/
def accelerateTicks (d : Vector3) (dt : ℝ) (n : ℕ) (s : State) : State :=
  (Accelerate d acceleration dt)^[n] s

/-! ## Concrete states and inputs -/

/-- A state right after construction: zero stored velocity, identity orientation, pointer not
locked, the body at rest and airborne. -/
def start : State where
  speed := Vector3.zero
  isLocked := false
  angles := ⟨0, 0, 0⟩
  pitch := Quaternion.identity
  yaw := Quaternion.identity
  rotation := Quaternion.identity
  cameraQuaternion := Quaternion.identity
  cameraPosition := Vector3.zero
  position := Vector3.zero
  velocity := Vector3.zero
  angularVelocity := Vector3.zero
  motionState := none
  canJump := false

/-- The state `start` standing on the ground. -/
def grounded : State := { start with canJump := true }

/-- A grounded state with stored velocity `v`. -/
def groundedWith (v : Vector3) : State := { start with canJump := true, speed := v }

/-- An airborne state whose body moves with velocity `v`. -/
def airborneWith (v : Vector3) : State := { start with velocity := v }

/-- The state `start` with the pointer locked and pitch `p`. -/
def lockedWith (p : ℝ) : State := { start with isLocked := true, angles := ⟨p, 0, 0⟩ }

/-- No key down. -/
def noKeys : Input := ⟨false, false, false, false, false⟩

/-- Only `KeyW` down. -/
def onlyW : Input := ⟨true, false, false, false, false⟩

/-- Only `KeyA` down. -/
def onlyA : Input := ⟨false, true, false, false, false⟩

/-- Only `KeyS` down. -/
def onlyS : Input := ⟨false, false, true, false, false⟩

/-- Only `KeyD` down. -/
def onlyD : Input := ⟨false, false, false, true, false⟩

/-- Only `Space` down. -/
def onlySpace : Input := ⟨false, false, false, false, true⟩

/-- A grounded state with yaw angle `y` and pitch angle `p` (the quaternions brought up to
date by `UpdateRotation`), stored velocity `v` and body velocity `b`. -/
def facing (y p : ℝ) (v b : Vector3) : State :=
  UpdateRotation { start with canJump := true, angles := ⟨p, y, 0⟩, speed := v, velocity := b }

/-- Keys `KeyS` and `KeyD` down together. -/
def keysSD : Input := ⟨false, false, true, true, false⟩

/-- Keys `KeyW` and `KeyS` down together. -/
def keysWS : Input := ⟨true, false, true, false, false⟩

/-! ## The ground movement in double arithmetic

JavaScript numbers are IEEE 754 binary64 values. Every finite double is an integer multiple of
`2^-1074`, so a finite double is represented here by the integer `k` whose value is
`k * 2^-1074`; an operation is the exact operation followed by rounding to nearest, ties to
even. Infinities, NaN and the sign of zero are not represented (the values met below stay
finite and far from overflow). The methods are the ones above, with the same order of
operations as the source. -/

namespace Dbl

/-- Floor of the binary logarithm of `n`, for `1 ≤ n < 2^4096` (and `0` for `n = 0`), found by
halving the search range twelve times. -/
def log2Aux : ℕ → ℕ → ℕ → ℕ
  | 0, _, acc => acc
  | k + 1, n, acc =>
    if 2 ^ 2 ^ k ≤ n then log2Aux k (n / 2 ^ 2 ^ k) (acc + 2 ^ k) else log2Aux k n acc

/-- Floor of the binary logarithm, see `log2Aux`. -/
def log2 (n : ℕ) : ℕ := log2Aux 12 n 0

/-- The non-negative rational `n / d`, counted in units of `2^-1074`, rounded to the nearest
double, ties to even: below `2^53` units the doubles are the integers, above they keep 53
significant bits. -/
def roundNat (n d : ℕ) : ℕ :=
  let shift := (log2 (n / d) + 1) - 53
  let D := d * 2 ^ shift
  let q := n / D
  let r := n % D
  (if 2 * r > D ∨ (2 * r = D ∧ q % 2 = 1) then q + 1 else q) * 2 ^ shift

/-- The rational `num / den`, in units of `2^-1074`, rounded to the nearest double. -/
def round (num : ℤ) (den : ℕ) : ℤ :=
  if num < 0 then -(roundNat num.natAbs den : ℤ) else (roundNat num.natAbs den : ℤ)

/-- The double nearest to the rational `n / d`: a numeric literal of the source. -/
def ofRat (n : ℤ) (d : ℕ) : ℤ := round (n * 2 ^ 1074) d

/-- Value of a double as a real number. -/
def toReal (k : ℤ) : ℝ := (k : ℝ) / 2 ^ 1074

/-- Operator `a + b` on doubles. -/
def add (a b : ℤ) : ℤ := round (a + b) 1

/-- Operator `a - b` on doubles. -/
def sub (a b : ℤ) : ℤ := round (a - b) 1

/-- Operator `a * b` on doubles. -/
def mul (a b : ℤ) : ℤ := round (a * b) (2 ^ 1074)

/-- Operator `a / b` on doubles, for `b ≠ 0`. -/
def div (a b : ℤ) : ℤ :=
  if b < 0 then round (-(a * 2 ^ 1074)) b.natAbs else round (a * 2 ^ 1074) b.natAbs

/-- Integer square root of `N < 2^(2*i)`, one bit at a time from bit `i - 1` down. -/
def isqrtAux : ℕ → ℕ → ℕ → ℕ
  | 0, _, r => r
  | i + 1, N, r => isqrtAux i N (if (r + 2 ^ i) * (r + 2 ^ i) ≤ N then r + 2 ^ i else r)

/-- Square root of `a` units, in units, rounded to the nearest double: the integer square root
`s` of the leading 111 or 112 bits of `a * 2^1074` has 56 bits; it is rounded to 53 bits,
what lies below `s` deciding a tie. -/
def sqrtNat (a : ℕ) : ℕ :=
  let N := a * 2 ^ 1074
  let t := (log2 N + 1 - 111) / 2
  let s := isqrtAux 64 (N / 2 ^ (2 * t)) 0
  let exact := (s * 2 ^ t) * (s * 2 ^ t) = N
  let shift := (log2 s + 1) - 53
  let q := s / 2 ^ shift
  let low := s % 2 ^ shift
  let half := 2 ^ shift / 2
  if a = 0 then 0
  else (if low > half ∨ (low = half ∧ (¬ exact ∨ q % 2 = 1)) then q + 1 else q) * 2 ^ (shift + t)

/-- Function `Math.sqrt` on a non-negative double. -/
def sqrt (a : ℤ) : ℤ := (sqrtNat a.toNat : ℤ)

/-- Function `Math.min` on doubles. -/
def min (a b : ℤ) : ℤ := if b < a then b else a

/-- Function `Math.max` on doubles. -/
def max (a b : ℤ) : ℤ := if a < b then b else a

/-- The double `1`. -/
def one : ℤ := ofRat 1 1

/-- JavaScript `l || 1` on a double. -/
def orOne (l : ℤ) : ℤ := if l = 0 then one else l

/-- A `THREE.Vector3` of doubles. -/
structure Vector3 where
  x : ℤ
  y : ℤ
  z : ℤ

/-- A `THREE.Quaternion` of doubles. -/
structure Quaternion where
  x : ℤ
  y : ℤ
  z : ℤ
  w : ℤ

/-- Method `length()`: `Math.sqrt(x*x + y*y + z*z)`. -/
def Vector3.length (v : Vector3) : ℤ :=
  Dbl.sqrt (Dbl.add (Dbl.add (Dbl.mul v.x v.x) (Dbl.mul v.y v.y)) (Dbl.mul v.z v.z))

/-- Method `multiplyScalar(s)`. -/
def Vector3.multiplyScalar (v : Vector3) (s : ℤ) : Vector3 :=
  ⟨Dbl.mul v.x s, Dbl.mul v.y s, Dbl.mul v.z s⟩

/-- Method `divideScalar(s)`: `multiplyScalar(1 / s)`. -/
def Vector3.divideScalar (v : Vector3) (s : ℤ) : Vector3 := v.multiplyScalar (Dbl.div one s)

/-- Method `add(w)`. -/
def Vector3.add (v w : Vector3) : Vector3 := ⟨Dbl.add v.x w.x, Dbl.add v.y w.y, Dbl.add v.z w.z⟩

/-- Method `normalize()`: `divideScalar(length() || 1)`. -/
def Vector3.normalize (v : Vector3) : Vector3 := v.divideScalar (orOne v.length)

/-- Method `clampLength(min, max)`:
`divideScalar(length || 1).multiplyScalar(Math.max(min, Math.min(max, length)))`. -/
def Vector3.clampLength (v : Vector3) (lo hi : ℤ) : Vector3 :=
  let length := v.length
  (v.divideScalar (orOne length)).multiplyScalar (Dbl.max lo (Dbl.min hi length))

/-- Method `applyQuaternion(q)`, with the source's order of operations. -/
def Vector3.applyQuaternion (v : Vector3) (q : Quaternion) : Vector3 :=
  let ix := Dbl.sub (Dbl.add (Dbl.mul q.w v.x) (Dbl.mul q.y v.z)) (Dbl.mul q.z v.y)
  let iy := Dbl.sub (Dbl.add (Dbl.mul q.w v.y) (Dbl.mul q.z v.x)) (Dbl.mul q.x v.z)
  let iz := Dbl.sub (Dbl.add (Dbl.mul q.w v.z) (Dbl.mul q.x v.y)) (Dbl.mul q.y v.x)
  let iw := Dbl.sub (Dbl.sub (Dbl.mul (-q.x) v.x) (Dbl.mul q.y v.y)) (Dbl.mul q.z v.z)
  ⟨Dbl.sub (Dbl.add (Dbl.add (Dbl.mul ix q.w) (Dbl.mul iw (-q.x))) (Dbl.mul iy (-q.z)))
      (Dbl.mul iz (-q.y)),
   Dbl.sub (Dbl.add (Dbl.add (Dbl.mul iy q.w) (Dbl.mul iw (-q.y))) (Dbl.mul iz (-q.x)))
      (Dbl.mul ix (-q.z)),
   Dbl.sub (Dbl.add (Dbl.add (Dbl.mul iz q.w) (Dbl.mul iw (-q.z))) (Dbl.mul ix (-q.y)))
      (Dbl.mul iy (-q.x))⟩

/-- Result of `new THREE.Quaternion()`, also what `setFromAxisAngle(yAxis, 0)` gives
(`Math.sin(0)` is `0` and `Math.cos(0)` is `1`): the yaw quaternion of the yaw angle `0`. -/
def Quaternion.identity : Quaternion := ⟨0, 0, 0, one⟩

/-- Constructor: `this.timeZeroToMax = 0.08`. -/
def timeZeroToMax : ℤ := ofRat 8 100

/-- Constructor: `this.maxSpeed = 4.0`. -/
def maxSpeed : ℤ := ofRat 4 1

/-- Constructor: `this.acceleration = this.maxSpeed / this.timeZeroToMax`. -/
def acceleration : ℤ := div maxSpeed timeZeroToMax

/-- Constructor: `this.decceleration = -7.0`. -/
def decceleration : ℤ := ofRat (-7) 1

/-- Method `Accelerate(direction, accelerationFactor, t)` on the stored velocity. -/
def Accelerate (direction : Vector3) (accelerationFactor t : ℤ) (speed : Vector3) : Vector3 :=
  let accel := direction.multiplyScalar (mul accelerationFactor t)
  (speed.add accel).clampLength 0 maxSpeed

/-- Method `Decelerate(t)` on the stored velocity. -/
def Decelerate (t : ℤ) (speed : Vector3) : Vector3 :=
  let frameDeccel := speed.multiplyScalar (mul decceleration t)
  speed.add frameDeccel

/-- Number `Input.GetKeyDown(code)`: the double `1` for a key that is down, else `0`. -/
def GetKeyDown (down : Bool) : ℤ := if down then one else 0

/-- First lines of `Update`: the normalised direction of the keys. -/
def direction (inp : Input) : Vector3 :=
  (Vector3.mk (sub (GetKeyDown inp.keyD) (GetKeyDown inp.keyA)) 0
    (sub (GetKeyDown inp.keyS) (GetKeyDown inp.keyW))).normalize

/-- Ground-movement block of `Update`: the stored velocity after a grounded tick. -/
def groundUpdate (inp : Input) (t : ℤ) (speed : Vector3) : Vector3 :=
  Accelerate (direction inp) acceleration t (Decelerate t speed)

/-- Grounded ticks of duration `t`, one for each element of the list of key states. -/
def groundTicks (t : ℤ) : List Input → Vector3 → Vector3
  | [], speed => speed
  | inp :: rest, speed => groundTicks t rest (groundUpdate inp t speed)

/-- End of `Update` on the ground: the body velocity after `velocity.setX(moveVector.x)` and
`velocity.setZ(moveVector.z)`, `moveVector` being the stored velocity rotated by `this.yaw`. -/
def groundVelocity (speed : Vector3) (yaw : Quaternion) (velocity : Vector3) : Vector3 :=
  let moveVector := speed.applyQuaternion yaw
  ⟨moveVector.x, velocity.y, moveVector.z⟩

/-- Lateral speed of a body velocity: the `length()` of `(x, 0, z)`. -/
def lateralSpeed (velocity : Vector3) : ℤ := (Vector3.mk velocity.x 0 velocity.z).length

/-- The tick duration `1 / 60`, a frame at 60 frames per second. -/
def frame60 : ℤ := div one (ofRat 60 1)

end Dbl

/-- Keys `KeyW` and `KeyA` down together. -/
def keysWA : Input := ⟨true, true, false, false, false⟩

/-- One grounded tick with `KeyW` and `KeyA` down, then seven with `KeyW` alone. -/
def strafeThenForward : List Input :=
  [keysWA, onlyW, onlyW, onlyW, onlyW, onlyW, onlyW, onlyW]

/-- Relative tolerance left for the rounding of doubles in the bounds on a speed. -/
def roundingSlack : ℝ := 1e-12

/-! ## Constants -/

theorem maxSpeed_eq : maxSpeed = 4 := by norm_num [maxSpeed]

theorem acceleration_eq : acceleration = 50 := by
  norm_num [acceleration, maxSpeed, timeZeroToMax]

theorem airAcceleration_eq : airAcceleration = 3 / 2 := by norm_num [airAcceleration]

theorem decceleration_eq : decceleration = -7 := by norm_num [decceleration]

/-! ## Lengths -/

theorem orOne_ne_zero (l : ℝ) : orOne l ≠ 0 := by
  unfold orOne
  split_ifs with h
  · exact one_ne_zero
  · exact h

theorem Vector3.length_nonneg (v : Vector3) : 0 ≤ v.length := Real.sqrt_nonneg _

theorem Vector3.sq_sum_nonneg (v : Vector3) : 0 ≤ v.x * v.x + v.y * v.y + v.z * v.z := by
  nlinarith [mul_self_nonneg v.x, mul_self_nonneg v.y, mul_self_nonneg v.z]

theorem Vector3.length_mul_self (v : Vector3) :
    v.length * v.length = v.x * v.x + v.y * v.y + v.z * v.z :=
  Real.mul_self_sqrt v.sq_sum_nonneg

theorem Vector3.length_eq_zero_iff (v : Vector3) : v.length = 0 ↔ v = Vector3.zero := by
  constructor
  · intro h
    have h2 := v.length_mul_self
    rw [h] at h2
    have hx : v.x = 0 := by nlinarith [mul_self_nonneg v.x, mul_self_nonneg v.y, mul_self_nonneg v.z]
    have hy : v.y = 0 := by nlinarith [mul_self_nonneg v.x, mul_self_nonneg v.y, mul_self_nonneg v.z]
    have hz : v.z = 0 := by nlinarith [mul_self_nonneg v.x, mul_self_nonneg v.y, mul_self_nonneg v.z]
    ext <;> simp [Vector3.zero, hx, hy, hz]
  · intro h
    subst h
    simp [Vector3.length, Vector3.zero]

theorem Vector3.length_multiplyScalar (v : Vector3) (c : ℝ) :
    (v.multiplyScalar c).length = |c| * v.length := by
  have h : (v.x * c) * (v.x * c) + (v.y * c) * (v.y * c) + (v.z * c) * (v.z * c)
      = (c * c) * (v.x * v.x + v.y * v.y + v.z * v.z) := by ring
  simp only [Vector3.length, Vector3.multiplyScalar]
  rw [h, Real.sqrt_mul (mul_self_nonneg c), Real.sqrt_mul_self_eq_abs]

theorem Vector3.clampLength_eq (v : Vector3) (hi : ℝ) :
    v.clampLength 0.0 hi = v.multiplyScalar (clampFactor hi v.length) := by
  simp only [Vector3.clampLength, Vector3.divideScalar, Vector3.multiplyScalar, clampFactor]
  ext <;> norm_num <;> ring

theorem Vector3.length_clampLength (v : Vector3) (hi : ℝ) (h : 0 ≤ hi) :
    (v.clampLength 0.0 hi).length = min hi v.length := by
  rw [Vector3.clampLength_eq, Vector3.length_multiplyScalar]
  have hl := v.length_nonneg
  have hm : 0 ≤ min hi v.length := le_min h hl
  unfold clampFactor orOne
  split_ifs with h0
  · rw [h0]
    simp [h]
  · have hpos : 0 < v.length := lt_of_le_of_ne hl (Ne.symm h0)
    rw [max_eq_right hm, abs_of_nonneg (mul_nonneg (by positivity) hm)]
    field_simp

theorem Vector3.clampLength_of_le (v : Vector3) (hi : ℝ) (h : v.length ≤ hi) :
    v.clampLength 0.0 hi = v := by
  rw [Vector3.clampLength_eq]
  have hl := v.length_nonneg
  unfold clampFactor orOne
  split_ifs with h0
  · have := (v.length_eq_zero_iff).1 h0
    rw [this]
    simp [Vector3.multiplyScalar, Vector3.zero]
  · rw [min_eq_right h, max_eq_right hl]
    have : 1 / v.length * v.length = 1 := by field_simp
    rw [this]
    simp [Vector3.multiplyScalar]

theorem Vector3.clampLength_of_gt (v : Vector3) (hi : ℝ) (h0 : 0 ≤ hi) (h : hi < v.length) :
    v.clampLength 0.0 hi = v.multiplyScalar (hi / v.length) := by
  rw [Vector3.clampLength_eq]
  have hpos : 0 < v.length := lt_of_le_of_lt h0 h
  unfold clampFactor orOne
  rw [if_neg (ne_of_gt hpos), min_eq_left (le_of_lt h), max_eq_right h0]
  congr 1
  field_simp

/-! ## Frame lemmas for the events that leave the stored velocity alone -/

theorem UpdateRotation_speed (s : State) : (UpdateRotation s).speed = s.speed := rfl

theorem OnMouseMove_speed (dx dy : ℝ) (s : State) : (OnMouseMove dx dy s).speed = s.speed := by
  unfold OnMouseMove
  split_ifs <;> rfl

theorem Accelerate_speed_length (d : Vector3) (a t : ℝ) (s : State) :
    (Accelerate d a t s).speed.length ≤ maxSpeed := by
  simp only [Accelerate]
  rw [Vector3.length_clampLength _ _ (by norm_num [maxSpeed])]
  exact min_le_left _ _

/-- Stored velocity after `Update`: the ground branch when `canJump` held at the start of the
tick, untouched otherwise. -/
theorem Update_speed (inp : Input) (t : ℝ) (s : State) :
    (Update inp t s).speed =
      if s.canJump then (Accelerate (direction inp) acceleration t (Decelerate t s)).speed
      else s.speed := by
  unfold Update
  cases hc : s.canJump <;> cases hj : inp.space <;> cases hm : s.motionState <;>
    simp [hc, hj, hm, Accelerate, Decelerate]

theorem step_speed_length (s : State) (e : Event) (h : s.speed.length ≤ maxSpeed) :
    (step s e).speed.length ≤ maxSpeed := by
  cases e with
  | tick inp t =>
    simp only [step, Update_speed]
    split_ifs
    · exact Accelerate_speed_length _ _ _ _
    · exact h
  | mouseMove dx dy => simpa [step, OnMouseMove_speed] using h
  | pointerlockChange l => exact h
  | physicsStep v w m => exact h
  | setCanJump b => exact h

theorem run_speed_length (es : List Event) (s : State) (h : s.speed.length ≤ maxSpeed) :
    (run s es).speed.length ≤ maxSpeed := by
  induction es generalizing s with
  | nil => exact h
  | cons e es ih => exact ih (step s e) (step_speed_length s e h)

theorem Vector3.length_zero : Vector3.zero.length = 0 := by
  simp [Vector3.length, Vector3.zero]

/-! ## The ground movement in double arithmetic: a trace that exceeds `maxSpeed` -/

/-- The double `maxSpeed` is exactly `4`, and `acceleration` is exactly `50`. -/
theorem Dbl.maxSpeed_acceleration_value :
    Dbl.maxSpeed = 4 * 2 ^ 1074 ∧ Dbl.acceleration = 50 * 2 ^ 1074 := by
  decide!

/-- In double arithmetic, from rest, after one grounded tick of `1/60` s with `KeyW` and
`KeyA` down and seven with `KeyW` alone, `length()` of the stored velocity is `4 + 2^-50`. -/
theorem Dbl.strafeThenForward_length :
    (Dbl.groundTicks Dbl.frame60 strafeThenForward ⟨0, 0, 0⟩).length
      = (2 ^ 52 + 1) * 2 ^ 1024 := by
  decide!

/-! ## C1: the stored velocity and `maxSpeed` -/

theorem maxSpeed_le_slack : maxSpeed ≤ maxSpeed * (1 + roundingSlack) := by
  norm_num [maxSpeed, roundingSlack]

/-- Squared length, in exact arithmetic, of a vector of doubles. -/
theorem Dbl.toReal_sq_sum (x y z : ℤ) :
    Dbl.toReal x * Dbl.toReal x + Dbl.toReal y * Dbl.toReal y + Dbl.toReal z * Dbl.toReal z
      = ((x * x + y * y + z * z : ℤ) : ℝ) / 2 ^ 2148 := by
  have h : (2 : ℝ) ^ 2148 = 2 ^ 1074 * 2 ^ 1074 := by rw [← pow_add]
  have ha : (2 : ℝ) ^ 1074 ≠ 0 := pow_ne_zero _ two_ne_zero
  simp only [Dbl.toReal]
  push_cast
  rw [h]
  generalize (2 : ℝ) ^ 1074 = a at ha
  field_simp

/-- C1, the claim as stated fails on the doubles the code computes with: from rest, after one
grounded tick of `1/60` s with `KeyW` and `KeyA` down and seven with `KeyW` alone, the stored
velocity has `length() = 4 + 2^-50 > maxSpeed = 4`, and its length in exact arithmetic
exceeds `maxSpeed` too (the sum of the squares of its components is above `16`). -/
theorem speed_length_counterexample :
    Dbl.toReal Dbl.maxSpeed = maxSpeed ∧
    Dbl.maxSpeed < (Dbl.groundTicks Dbl.frame60 strafeThenForward ⟨0, 0, 0⟩).length ∧
    Dbl.toReal (Dbl.groundTicks Dbl.frame60 strafeThenForward ⟨0, 0, 0⟩).length
      = 4 + 1 / 2 ^ 50 ∧
    maxSpeed < (Vector3.mk
      (Dbl.toReal (Dbl.groundTicks Dbl.frame60 strafeThenForward ⟨0, 0, 0⟩).x)
      (Dbl.toReal (Dbl.groundTicks Dbl.frame60 strafeThenForward ⟨0, 0, 0⟩).y)
      (Dbl.toReal (Dbl.groundTicks Dbl.frame60 strafeThenForward ⟨0, 0, 0⟩).z)).length := by
  have hm : Dbl.maxSpeed = 4 * 2 ^ 1074 := Dbl.maxSpeed_acceleration_value.1
  have hl := Dbl.strafeThenForward_length
  have hsq : (16 * 2 ^ 2148 : ℤ)
      < (Dbl.groundTicks Dbl.frame60 strafeThenForward ⟨0, 0, 0⟩).x
          * (Dbl.groundTicks Dbl.frame60 strafeThenForward ⟨0, 0, 0⟩).x
        + (Dbl.groundTicks Dbl.frame60 strafeThenForward ⟨0, 0, 0⟩).y
          * (Dbl.groundTicks Dbl.frame60 strafeThenForward ⟨0, 0, 0⟩).y
        + (Dbl.groundTicks Dbl.frame60 strafeThenForward ⟨0, 0, 0⟩).z
          * (Dbl.groundTicks Dbl.frame60 strafeThenForward ⟨0, 0, 0⟩).z := by
    decide!
  refine ⟨?_, ?_, ?_, ?_⟩
  · have ha : (2 : ℝ) ^ 1074 ≠ 0 := pow_ne_zero _ two_ne_zero
    rw [hm, maxSpeed_eq, Dbl.toReal]
    simp only [Int.cast_mul, Int.cast_pow, Int.cast_ofNat]
    generalize (2 : ℝ) ^ 1074 = a at ha
    field_simp
  · rw [hl, hm]
    decide!
  · have h : (2 : ℝ) ^ 1074 = 2 ^ 1024 * 2 ^ 50 := by rw [← pow_add]
    have ha : (2 : ℝ) ^ 1024 ≠ 0 := pow_ne_zero _ two_ne_zero
    rw [hl, Dbl.toReal]
    simp only [Int.cast_mul, Int.cast_add, Int.cast_pow, Int.cast_ofNat, Int.cast_one]
    rw [h]
    generalize (2 : ℝ) ^ 1024 = a at ha
    field_simp
    ring
  · have hpos : (0 : ℝ) < 2 ^ 2148 := by positivity
    have h := (Int.cast_lt (R := ℝ)).2 hsq
    rw [maxSpeed_eq, Vector3.length, Dbl.toReal_sq_sum]
    apply Real.lt_sqrt_of_sq_lt
    rw [lt_div_iff₀ hpos]
    simp only [Int.cast_mul, Int.cast_pow, Int.cast_ofNat] at h
    have h16 : (4 : ℝ) ^ 2 = 16 := by norm_num
    rw [h16]
    exact h

/-- C1, amended: the stored planar velocity never exceeds `maxSpeed` in magnitude by more
than rounding: for every prior stored velocity, every direction and every tick duration,
`Decelerate` followed by `Accelerate` leaves `|speed| ≤ maxSpeed * (1 + 10^-12)`, and so does
a grounded `Update`; and from a zero stored velocity the same bound holds after any sequence
of events (grounded and airborne ticks, mouse events, physics steps, writes of `canJump`),
hence after every tick of it. -/
theorem speed_length_le_maxSpeed (s : State) (d : Vector3) (inp : Input) (t : ℝ)
    (es : List Event) :
    (Accelerate d acceleration t (Decelerate t s)).speed.length
      ≤ maxSpeed * (1 + roundingSlack) ∧
    (s.canJump = true → (Update inp t s).speed.length ≤ maxSpeed * (1 + roundingSlack)) ∧
    (s.speed = Vector3.zero → (run s es).speed.length ≤ maxSpeed * (1 + roundingSlack)) := by
  refine ⟨le_trans (Accelerate_speed_length _ _ _ _) maxSpeed_le_slack, ?_, ?_⟩
  · intro hc
    rw [Update_speed, if_pos hc]
    exact le_trans (Accelerate_speed_length _ _ _ _) maxSpeed_le_slack
  · intro h0
    refine le_trans (run_speed_length es s ?_) maxSpeed_le_slack
    rw [h0, Vector3.length_zero]
    norm_num [maxSpeed]

/-- C1 amended, at a concrete input: a grounded tick with `KeyD` down, and a run of a grounded
tick, a take-off and an airborne tick, both from the zero stored velocity. -/
theorem speed_length_le_maxSpeed_witness :
    grounded.canJump = true ∧
    (Update onlyD 1 grounded).speed.length ≤ maxSpeed * (1 + roundingSlack) ∧
    grounded.speed = Vector3.zero ∧
    (run grounded [.tick onlyD 1, .setCanJump false, .tick onlyW 1]).speed.length
      ≤ maxSpeed * (1 + roundingSlack) :=
  have h := speed_length_le_maxSpeed grounded Vector3.zero onlyD 1
    [.tick onlyD 1, .setCanJump false, .tick onlyW 1]
  ⟨rfl, h.2.1 rfl, rfl, h.2.2 rfl⟩

/-! ## C2: the pitch stays clamped -/

theorem OnMouseMove_isLocked (dx dy : ℝ) (s : State) :
    (OnMouseMove dx dy s).isLocked = s.isLocked := by
  unfold OnMouseMove
  split_ifs <;> rfl

/-- Pitch after a mouse event handled while the pointer is locked. -/
theorem OnMouseMove_angles_x (dx dy : ℝ) (s : State) (hl : s.isLocked = true) :
    (OnMouseMove dx dy s).angles.x
      = max (-Real.pi / 2) (min (Real.pi / 2) (s.angles.x - dy * mouseSpeed)) := by
  simp [OnMouseMove, hl, UpdateRotation]

theorem clamp_mem (p : ℝ) :
    -Real.pi / 2 ≤ max (-Real.pi / 2) (min (Real.pi / 2) p) ∧
    max (-Real.pi / 2) (min (Real.pi / 2) p) ≤ Real.pi / 2 := by
  have hpi := Real.pi_pos
  refine ⟨le_max_left _ _, max_le (by linarith) (min_le_left _ _)⟩

theorem mouseMoves_pitch (ms : List (ℝ × ℝ)) (s : State) (hl : s.isLocked = true)
    (hne : ms ≠ []) :
    -Real.pi / 2 ≤ (mouseMoves s ms).angles.x ∧ (mouseMoves s ms).angles.x ≤ Real.pi / 2 := by
  induction ms generalizing s with
  | nil => exact absurd rfl hne
  | cons m rest ih =>
    have hl2 : (OnMouseMove m.1 m.2 s).isLocked = true := by rw [OnMouseMove_isLocked, hl]
    by_cases hr : rest = []
    · subst hr
      simp only [mouseMoves, List.foldl]
      rw [OnMouseMove_angles_x _ _ _ hl]
      exact clamp_mem _
    · exact ih (OnMouseMove m.1 m.2 s) hl2 hr

/-- C2: while the pointer is locked, for every prior pitch (inside the clamp range or not) and
every non-empty sequence of mouse deltas of any size, the pitch `angles.x` lies in
`[-π/2, π/2]` after the sequence and after each of its events (after its first `k` events,
for every `k > 0`); and the bounds are inclusive: an updated pitch anywhere in the closed
range, in particular exactly `π/2` or `-π/2`, is stored as it is. -/
theorem pitch_in_range (s : State) (ms : List (ℝ × ℝ)) (dx dy : ℝ)
    (hl : s.isLocked = true) (hne : ms ≠ []) :
    (-Real.pi / 2 ≤ (mouseMoves s ms).angles.x ∧ (mouseMoves s ms).angles.x ≤ Real.pi / 2) ∧
    (∀ k, 0 < k → -Real.pi / 2 ≤ (mouseMoves s (ms.take k)).angles.x ∧
      (mouseMoves s (ms.take k)).angles.x ≤ Real.pi / 2) ∧
    (-Real.pi / 2 ≤ s.angles.x - dy * mouseSpeed → s.angles.x - dy * mouseSpeed ≤ Real.pi / 2 →
      (OnMouseMove dx dy s).angles.x = s.angles.x - dy * mouseSpeed) ∧
    (s.angles.x - dy * mouseSpeed = Real.pi / 2 → (OnMouseMove dx dy s).angles.x = Real.pi / 2) ∧
    (s.angles.x - dy * mouseSpeed = -Real.pi / 2 →
      (OnMouseMove dx dy s).angles.x = -Real.pi / 2) := by
  have hpi := Real.pi_pos
  refine ⟨mouseMoves_pitch ms s hl hne, ?_, ?_, ?_, ?_⟩
  · intro k hk
    apply mouseMoves_pitch _ s hl
    cases ms with
    | nil => exact absurd rfl hne
    | cons m rest =>
      cases k with
      | zero => exact absurd hk (lt_irrefl 0)
      | succ k => simp
  · intro h1 h2
    rw [OnMouseMove_angles_x _ _ _ hl, min_eq_right h2, max_eq_right h1]
  · intro h
    rw [OnMouseMove_angles_x _ _ _ hl, h, min_eq_right le_rfl, max_eq_right (by linarith)]
  · intro h
    rw [OnMouseMove_angles_x _ _ _ hl, h, min_eq_right (by linarith), max_eq_right le_rfl]

/-- C2 at a concrete input: from a pitch of `100`, far outside the range, two large mouse
deltas; and a pitch of exactly `π/2` with a zero delta. -/
theorem pitch_in_range_witness :
    (-Real.pi / 2 ≤ (mouseMoves (lockedWith 100) [(5, -100000), (0, 100000)]).angles.x ∧
      (mouseMoves (lockedWith 100) [(5, -100000), (0, 100000)]).angles.x ≤ Real.pi / 2) ∧
    (OnMouseMove 0 0 (lockedWith (Real.pi / 2))).angles.x = Real.pi / 2 :=
  ⟨(pitch_in_range (lockedWith 100) [(5, -100000), (0, 100000)] 0 0 rfl (by simp)).1,
   (pitch_in_range (lockedWith (Real.pi / 2)) [(0, 0)] 0 0 rfl (by simp)).2.2.2.1
     (by simp [lockedWith])⟩

/-! ## C3: the grounded tick as a formula -/

theorem Vector3.clampLength_eq_clampSpec (w : Vector3) :
    w.clampLength 0.0 maxSpeed = clampSpec w := by
  unfold clampSpec
  split_ifs with h
  · exact w.clampLength_of_le _ h
  · exact w.clampLength_of_gt _ (by norm_num [maxSpeed]) (lt_of_not_ge h)

theorem Decelerate_speed (t : ℝ) (s : State) :
    (Decelerate t s).speed = s.speed.multiplyScalar (1 + decceleration * t) := by
  simp only [Decelerate, Vector3.add, Vector3.multiplyScalar]
  ext <;> simp <;> ring

theorem ground_speed (d : Vector3) (t : ℝ) (s : State) :
    (Accelerate d acceleration t (Decelerate t s)).speed = groundSpec s.speed d t := by
  unfold groundSpec
  rw [← Vector3.clampLength_eq_clampSpec, ← Decelerate_speed]
  rfl

theorem Vector3.length_of_sq (x y z l : ℝ) (hl : 0 ≤ l) (h : x * x + y * y + z * z = l * l) :
    (Vector3.mk x y z).length = l := by
  simp only [Vector3.length]
  rw [h, Real.sqrt_mul_self hl]

theorem direction_noKeys : direction noKeys = Vector3.zero := by
  norm_num [direction, noKeys, rightFactor, forwardFactor, GetKeyDown, Vector3.normalize,
    Vector3.divideScalar, Vector3.multiplyScalar, Vector3.zero]

theorem direction_onlyS : direction onlyS = ⟨0, 0, 1⟩ := by
  have hl : (Vector3.mk 0 0 1).length = 1 := Vector3.length_of_sq 0 0 1 1 (by norm_num) (by norm_num)
  have : (Vector3.mk (rightFactor onlyS) 0.0 (forwardFactor onlyS)) = ⟨0, 0, 1⟩ := by
    ext <;> norm_num [onlyS, rightFactor, forwardFactor, GetKeyDown]
  unfold direction
  rw [this]
  simp only [Vector3.normalize, hl, orOne, Vector3.divideScalar, Vector3.multiplyScalar]
  ext <;> norm_num

/-- C3: for every stored velocity `v = s.speed`, direction `d` and duration `t`, deceleration
followed by acceleration stores `clamp(v*(1 + decceleration*t) + d*acceleration*t)`, and that
is what a grounded `Update` stores for the direction of its keys; the clamp returns a vector
of length at most `maxSpeed` unchanged and otherwise multiplies it by `maxSpeed / length`, a
factor in `(0, 1)`, so that the result has the same direction and length exactly `maxSpeed`.
From `(0,0,0)` with `d = (0,0,1)`, `t = 0.1` the result is `(0,0,4)`; from `(4,0,0)` with no
key down and `t = 0.1` it is `(1.2,0,0)`. -/
theorem ground_tick_formula (s : State) (d w : Vector3) (inp : Input) (t : ℝ) :
    (Accelerate d acceleration t (Decelerate t s)).speed = groundSpec s.speed d t ∧
    (s.canJump = true → (Update inp t s).speed = groundSpec s.speed (direction inp) t) ∧
    (w.length ≤ maxSpeed → w.clampLength 0.0 maxSpeed = w) ∧
    (maxSpeed < w.length →
      w.clampLength 0.0 maxSpeed = w.multiplyScalar (maxSpeed / w.length) ∧
      0 < maxSpeed / w.length ∧ maxSpeed / w.length < 1 ∧
      (w.clampLength 0.0 maxSpeed).length = maxSpeed) ∧
    (Accelerate ⟨0, 0, 1⟩ acceleration 0.1 (Decelerate 0.1 (groundedWith ⟨0, 0, 0⟩))).speed
      = ⟨0, 0, 4⟩ ∧
    (Update onlyS 0.1 (groundedWith ⟨0, 0, 0⟩)).speed = ⟨0, 0, 4⟩ ∧
    (Update noKeys 0.1 (groundedWith ⟨4, 0, 0⟩)).speed = ⟨1.2, 0, 0⟩ := by
  have hm : (0 : ℝ) ≤ maxSpeed := by norm_num [maxSpeed]
  have e1 : groundSpec ⟨0, 0, 0⟩ ⟨0, 0, 1⟩ 0.1 = ⟨0, 0, 4⟩ := by
    have hv : ((Vector3.mk 0 0 0).multiplyScalar (1 + decceleration * 0.1)).add
        ((Vector3.mk 0 0 1).multiplyScalar (acceleration * 0.1)) = ⟨0, 0, 5⟩ := by
      ext <;> norm_num [Vector3.add, Vector3.multiplyScalar, acceleration_eq]
    have hl : (Vector3.mk 0 0 5).length = 5 :=
      Vector3.length_of_sq 0 0 5 5 (by norm_num) (by norm_num)
    unfold groundSpec clampSpec
    rw [hv, hl, if_neg (by norm_num [maxSpeed])]
    ext <;> norm_num [Vector3.multiplyScalar, maxSpeed]
  have e2 : groundSpec ⟨4, 0, 0⟩ Vector3.zero 0.1 = ⟨1.2, 0, 0⟩ := by
    have hv : ((Vector3.mk 4 0 0).multiplyScalar (1 + decceleration * 0.1)).add
        (Vector3.zero.multiplyScalar (acceleration * 0.1)) = ⟨1.2, 0, 0⟩ := by
      ext <;> norm_num [Vector3.add, Vector3.multiplyScalar, Vector3.zero, decceleration_eq]
    have hl : (Vector3.mk 1.2 0 0).length = 1.2 :=
      Vector3.length_of_sq 1.2 0 0 1.2 (by norm_num) (by norm_num)
    unfold groundSpec clampSpec
    rw [hv, hl, if_pos (by norm_num [maxSpeed])]
  refine ⟨ground_speed d t s, ?_, w.clampLength_of_le _, ?_, ?_, ?_, ?_⟩
  · intro hc
    rw [Update_speed, if_pos hc, ground_speed]
  · intro h
    have hpos : 0 < w.length := lt_of_le_of_lt hm h
    refine ⟨w.clampLength_of_gt _ hm h, div_pos (lt_of_lt_of_le (by norm_num [maxSpeed]) le_rfl) hpos,
      (div_lt_one hpos).2 h, ?_⟩
    rw [Vector3.length_clampLength _ _ hm, min_eq_left (le_of_lt h)]
  · rw [ground_speed]
    exact e1
  · have hc : (groundedWith ⟨0, 0, 0⟩).canJump = true := rfl
    rw [Update_speed, if_pos hc, ground_speed, direction_onlyS]
    exact e1
  · have hc : (groundedWith ⟨4, 0, 0⟩).canJump = true := rfl
    rw [Update_speed, if_pos hc, ground_speed, direction_noKeys]
    exact e2

/-- C3 at a concrete input: a grounded tick of `0.5` s with `KeyS` down from the stored
velocity `(1,0,0)`, and the clamp on `(3,0,0)` and on `(0,0,5)`. -/
theorem ground_tick_formula_witness :
    (Update onlyS 0.5 (groundedWith ⟨1, 0, 0⟩)).speed
      = groundSpec (groundedWith ⟨1, 0, 0⟩).speed (direction onlyS) 0.5 ∧
    (Vector3.mk 3 0 0).clampLength 0.0 maxSpeed = ⟨3, 0, 0⟩ ∧
    ((Vector3.mk 0 0 5).clampLength 0.0 maxSpeed).length = maxSpeed :=
  have h3 : (Vector3.mk 3 0 0).length = 3 :=
    Vector3.length_of_sq 3 0 0 3 (by norm_num) (by norm_num)
  have h5 : (Vector3.mk 0 0 5).length = 5 :=
    Vector3.length_of_sq 0 0 5 5 (by norm_num) (by norm_num)
  ⟨(ground_tick_formula (groundedWith ⟨1, 0, 0⟩) Vector3.zero Vector3.zero onlyS 0.5).2.1 rfl,
   (ground_tick_formula grounded Vector3.zero ⟨3, 0, 0⟩ noKeys 0).2.2.1
     (by rw [h3]; norm_num [maxSpeed]),
   ((ground_tick_formula grounded Vector3.zero ⟨0, 0, 5⟩ noKeys 0).2.2.2.1
     (by rw [h5]; norm_num [maxSpeed])).2.2.2⟩

/-! ## C4: grounded ticks without movement keys -/

theorem direction_eq_zero (inp : Input) (hr : rightFactor inp = 0) (hf : forwardFactor inp = 0) :
    direction inp = Vector3.zero := by
  unfold direction
  rw [hr, hf]
  norm_num [Vector3.normalize, Vector3.divideScalar, Vector3.multiplyScalar, Vector3.zero]

theorem direction_of_no_movement_key (inp : Input) (hW : inp.keyW = false)
    (hA : inp.keyA = false) (hS : inp.keyS = false) (hD : inp.keyD = false) :
    direction inp = Vector3.zero :=
  direction_eq_zero inp (by simp [rightFactor, hA, hD]) (by simp [forwardFactor, hS, hW])

/-- Stored velocity after a grounded tick whose direction is zero. -/
theorem idle_speed (inp : Input) (dt : ℝ) (s : State) (hd : direction inp = Vector3.zero)
    (hc : s.canJump = true) :
    (Update inp dt s).speed
      = (s.speed.multiplyScalar (1 + decceleration * dt)).clampLength 0.0 maxSpeed := by
  rw [Update_speed, if_pos hc, hd]
  simp only [Accelerate, Decelerate_speed]
  congr 1
  ext <;> simp [Vector3.add, Vector3.multiplyScalar, Vector3.zero]

theorem idle_length (inp : Input) (dt : ℝ) (s : State) (hd : direction inp = Vector3.zero)
    (hc : s.canJump = true) :
    (Update inp dt s).speed.length
      = min maxSpeed (|1 + decceleration * dt| * s.speed.length) := by
  rw [idle_speed inp dt s hd hc, Vector3.length_clampLength _ _ (by norm_num [maxSpeed]),
    Vector3.length_multiplyScalar]

theorem groundedTicks_succ (inp : Input) (dt : ℝ) (n : ℕ) (s : State) :
    groundedTicks inp dt (n + 1) s
      = Update inp dt { groundedTicks inp dt n s with canJump := true } := by
  simp only [groundedTicks, Function.iterate_succ_apply']

theorem groundedTicks_length_succ (inp : Input) (dt : ℝ) (n : ℕ) (s : State)
    (hd : direction inp = Vector3.zero) :
    (groundedTicks inp dt (n + 1) s).speed.length
      = min maxSpeed (|1 + decceleration * dt| * (groundedTicks inp dt n s).speed.length) := by
  rw [groundedTicks_succ, idle_length inp dt _ hd rfl]

theorem abs_decay_lt_one (dt : ℝ) (h0 : 0 < dt) (h1 : dt < 2 / 7) :
    |1 + decceleration * dt| < 1 := by
  rw [decceleration_eq, abs_lt]
  constructor <;> linarith

/-- C4, the claim as stated fails: a grounded tick of `dt = 1` with no key down takes the
stored velocity `(1,0,0)`, of magnitude `1`, to magnitude `4`. -/
theorem idle_tick_counterexample :
    (0 : ℝ) < 1 ∧ (groundedWith ⟨1, 0, 0⟩).speed ≠ Vector3.zero ∧
    (Update noKeys 1 (groundedWith ⟨1, 0, 0⟩)).speed.length = 4 ∧
    (groundedWith ⟨1, 0, 0⟩).speed.length = 1 ∧
    ¬ ((Update noKeys 1 (groundedWith ⟨1, 0, 0⟩)).speed.length
        < (groundedWith ⟨1, 0, 0⟩).speed.length) := by
  have hl : (groundedWith ⟨1, 0, 0⟩).speed.length = 1 :=
    Vector3.length_of_sq 1 0 0 1 (by norm_num) (by norm_num)
  have h4 : (Update noKeys 1 (groundedWith ⟨1, 0, 0⟩)).speed.length = 4 := by
    rw [idle_length noKeys 1 _ direction_noKeys rfl, hl, decceleration_eq, maxSpeed_eq]
    norm_num [abs_of_neg]
  refine ⟨by norm_num, ?_, h4, hl, ?_⟩
  · intro h
    have := congrArg Vector3.x h
    norm_num [groundedWith, start, Vector3.zero] at this
  · rw [h4, hl]
    norm_num

/-- C4, amended: for every tick duration with `0 < dt < 2/7` (that is
`|1 + decceleration*dt| < 1`) and every non-zero stored velocity, a grounded tick with no
movement key held yields a stored velocity whose magnitude is non-negative and strictly
smaller than before; over repeated such ticks the magnitude never increases, is below the
initial magnitude from the first tick on, and tends to zero. -/
theorem idle_tick_decreases (s : State) (inp : Input) (dt : ℝ)
    (hW : inp.keyW = false) (hA : inp.keyA = false) (hS : inp.keyS = false)
    (hD : inp.keyD = false) (hc : s.canJump = true) (hv : s.speed ≠ Vector3.zero)
    (h0 : 0 < dt) (h1 : dt < 2 / 7) :
    0 ≤ (Update inp dt s).speed.length ∧
    (Update inp dt s).speed.length < s.speed.length ∧
    Antitone (fun n => (groundedTicks inp dt n s).speed.length) ∧
    (∀ n, 1 ≤ n → (groundedTicks inp dt n s).speed.length < s.speed.length) ∧
    Filter.Tendsto (fun n => (groundedTicks inp dt n s).speed.length) Filter.atTop (nhds 0) := by
  have hd := direction_of_no_movement_key inp hW hA hS hD
  have ha := abs_decay_lt_one dt h0 h1
  have ha0 : 0 ≤ |1 + decceleration * dt| := abs_nonneg _
  have hpos : 0 < s.speed.length :=
    lt_of_le_of_ne s.speed.length_nonneg (fun h => hv ((s.speed.length_eq_zero_iff).1 h.symm))
  have hstep : ∀ n, (groundedTicks inp dt (n + 1) s).speed.length
      ≤ |1 + decceleration * dt| * (groundedTicks inp dt n s).speed.length := by
    intro n
    rw [groundedTicks_length_succ inp dt n s hd]
    exact min_le_right _ _
  have hanti : Antitone (fun n => (groundedTicks inp dt n s).speed.length) := by
    apply antitone_nat_of_succ_le
    intro n
    exact le_trans (hstep n) (mul_le_of_le_one_left (Vector3.length_nonneg _) (le_of_lt ha))
  have hfirst : (groundedTicks inp dt 1 s).speed.length < s.speed.length :=
    calc (groundedTicks inp dt 1 s).speed.length
        ≤ |1 + decceleration * dt| * (groundedTicks inp dt 0 s).speed.length := hstep 0
      _ < 1 * s.speed.length := mul_lt_mul_of_pos_right ha hpos
      _ = s.speed.length := one_mul _
  have hle : ∀ n, (groundedTicks inp dt n s).speed.length
      ≤ |1 + decceleration * dt| ^ n * s.speed.length := by
    intro n
    induction n with
    | zero => simp [groundedTicks]
    | succ n ih =>
      calc (groundedTicks inp dt (n + 1) s).speed.length
          ≤ |1 + decceleration * dt| * (groundedTicks inp dt n s).speed.length := hstep n
        _ ≤ |1 + decceleration * dt| * (|1 + decceleration * dt| ^ n * s.speed.length) :=
            mul_le_mul_of_nonneg_left ih ha0
        _ = |1 + decceleration * dt| ^ (n + 1) * s.speed.length := by ring
  refine ⟨Vector3.length_nonneg _, ?_, hanti, ?_, ?_⟩
  · rw [idle_length inp dt s hd hc]
    calc min maxSpeed (|1 + decceleration * dt| * s.speed.length)
        ≤ |1 + decceleration * dt| * s.speed.length := min_le_right _ _
      _ < 1 * s.speed.length := mul_lt_mul_of_pos_right ha hpos
      _ = s.speed.length := one_mul _
  · intro n hn
    exact lt_of_le_of_lt (hanti hn) hfirst
  · have hlim : Filter.Tendsto (fun n : ℕ => |1 + decceleration * dt| ^ n * s.speed.length)
        Filter.atTop (nhds 0) := by
      have := (tendsto_pow_atTop_nhds_zero_of_lt_one ha0 ha).mul_const s.speed.length
      simpa using this
    exact squeeze_zero (fun n => Vector3.length_nonneg _) hle hlim

/-- C4 amended, at a concrete input: `dt = 0.1`, stored velocity `(4,0,0)`, no key down. -/
theorem idle_tick_decreases_witness :
    (Update noKeys 0.1 (groundedWith ⟨4, 0, 0⟩)).speed.length
      < (groundedWith ⟨4, 0, 0⟩).speed.length ∧
    Antitone (fun n => (groundedTicks noKeys 0.1 n (groundedWith ⟨4, 0, 0⟩)).speed.length) ∧
    (groundedTicks noKeys 0.1 5 (groundedWith ⟨4, 0, 0⟩)).speed.length
      < (groundedWith ⟨4, 0, 0⟩).speed.length :=
  have hv : (groundedWith ⟨4, 0, 0⟩).speed ≠ Vector3.zero := by
    intro h
    have := congrArg Vector3.x h
    norm_num [groundedWith, start, Vector3.zero] at this
  have h := idle_tick_decreases (groundedWith ⟨4, 0, 0⟩) noKeys 0.1 rfl rfl rfl rfl rfl hv
    (by norm_num) (by norm_num)
  ⟨h.2.1, h.2.2.1, h.2.2.2.1 5 (by norm_num)⟩

/-! ## C5 to C9: the airborne branch -/

/-- Body velocity written back by an airborne `Update`. -/
theorem Update_velocity_airborne (inp : Input) (t : ℝ) (s : State) (hc : s.canJump = false) :
    (Update inp t s).velocity = airStrafe inp t s.velocity := by
  unfold Update
  cases hm : s.motionState <;> simp [hc, hm]

theorem lateralSpeed_eq (v : Vector3) : lateralSpeed v = Real.sqrt (v.x ^ 2 + v.z ^ 2) := by
  simp only [lateralSpeed, Vector3.length]
  congr 1
  ring

theorem lateralSpeed_nonneg (v : Vector3) : 0 ≤ lateralSpeed v := Real.sqrt_nonneg _

theorem lateralSpeed_of_sq (v : Vector3) (l : ℝ) (hl : 0 ≤ l) (h : v.x * v.x + v.z * v.z = l * l) :
    lateralSpeed v = l :=
  Vector3.length_of_sq v.x 0 v.z l hl (by linarith)

theorem direction_y (inp : Input) : (direction inp).y = 0 := by
  norm_num [direction, Vector3.normalize, Vector3.divideScalar, Vector3.multiplyScalar]

theorem direction_ne_zero_iff (inp : Input) :
    direction inp ≠ Vector3.zero ↔ (rightFactor inp ≠ 0 ∨ forwardFactor inp ≠ 0) := by
  constructor
  · intro h
    by_contra hcon
    push_neg at hcon
    exact h (direction_eq_zero inp hcon.1 hcon.2)
  · intro h hz
    have hx := congrArg Vector3.x hz
    have hzz := congrArg Vector3.z hz
    simp only [direction, Vector3.normalize, Vector3.divideScalar, Vector3.multiplyScalar,
      Vector3.zero] at hx hzz
    have hne : (1 : ℝ) / orOne (Vector3.mk (rightFactor inp) 0.0 (forwardFactor inp)).length ≠ 0 :=
      one_div_ne_zero (orOne_ne_zero _)
    rcases h with h | h
    · exact h ((mul_eq_zero.1 hx).resolve_right hne)
    · exact h ((mul_eq_zero.1 hzz).resolve_right hne)

theorem direction_onlyD : direction onlyD = ⟨1, 0, 0⟩ := by
  have hl : (Vector3.mk 1 0 0).length = 1 := Vector3.length_of_sq 1 0 0 1 (by norm_num) (by norm_num)
  have : (Vector3.mk (rightFactor onlyD) 0.0 (forwardFactor onlyD)) = ⟨1, 0, 0⟩ := by
    ext <;> norm_num [onlyD, rightFactor, forwardFactor, GetKeyDown]
  unfold direction
  rw [this]
  simp only [Vector3.normalize, hl, orOne, Vector3.divideScalar, Vector3.multiplyScalar]
  ext <;> norm_num

theorem rightFactor_onlyD : rightFactor onlyD = 1 := by
  norm_num [onlyD, rightFactor, GetKeyDown]

/-- Velocity after the air-strafing block for `KeyD` alone. -/
theorem airStrafe_onlyD (t : ℝ) (v : Vector3) :
    airStrafe onlyD t v = ⟨v.x + maxAirControl v * t, v.y, v.z⟩ := by
  unfold airStrafe
  rw [if_pos (Or.inl (by rw [rightFactor_onlyD]; norm_num)), direction_onlyD]
  ext <;> simp [Vector3.setX, Vector3.setZ, Vector3.multiplyScalar]

/-- C5: for every airborne tick with a non-zero input direction `d`, live body velocity
`(vx, vy, vz)` and duration `t`, the new horizontal body velocity is
`(vx, vz) + (d.x, d.z) * min(maxSpeed - sqrt(vx^2 + vz^2), airAcceleration) * t` and the
vertical one is `vy`; the stored planar velocity and the yaw do not enter (any two airborne
states with the same body velocity get the same result), and `d` is the direction of the keys
in world axes. With body velocity `(3,0,0)`, `d = (1,0,0)` and `t = 0.1` the budget is `1`
and the new x-velocity `3.1`. -/
theorem air_tick_formula (s s2 : State) (inp : Input) (t : ℝ) (hc : s.canJump = false)
    (hd : direction inp ≠ Vector3.zero) :
    (Update inp t s).velocity.x = s.velocity.x + (direction inp).x *
        min (maxSpeed - Real.sqrt (s.velocity.x ^ 2 + s.velocity.z ^ 2)) airAcceleration * t ∧
    (Update inp t s).velocity.z = s.velocity.z + (direction inp).z *
        min (maxSpeed - Real.sqrt (s.velocity.x ^ 2 + s.velocity.z ^ 2)) airAcceleration * t ∧
    (Update inp t s).velocity.y = s.velocity.y ∧
    (s2.canJump = false → s2.velocity = s.velocity →
      (Update inp t s2).velocity = (Update inp t s).velocity) ∧
    direction onlyD = ⟨1, 0, 0⟩ ∧
    maxAirControl (airborneWith ⟨3, 0, 0⟩).velocity = 1 ∧
    (Update onlyD 0.1 (airborneWith ⟨3, 0, 0⟩)).velocity.x = 3.1 := by
  have hk := (direction_ne_zero_iff inp).1 hd
  have h3 : lateralSpeed (airborneWith ⟨3, 0, 0⟩).velocity = 3 :=
    lateralSpeed_of_sq _ 3 (by norm_num) (by norm_num [airborneWith, start])
  have hb : maxAirControl (airborneWith ⟨3, 0, 0⟩).velocity = 1 := by
    rw [maxAirControl, h3, maxSpeed_eq, airAcceleration_eq]
    norm_num
  rw [Update_velocity_airborne inp t s hc]
  refine ⟨?_, ?_, ?_, ?_, direction_onlyD, hb, ?_⟩
  · simp only [airStrafe, if_pos hk, maxAirControl, lateralSpeed_eq, Vector3.setX, Vector3.setZ,
      Vector3.multiplyScalar]
    ring
  · simp only [airStrafe, if_pos hk, maxAirControl, lateralSpeed_eq, Vector3.setX, Vector3.setZ,
      Vector3.multiplyScalar]
    ring
  · simp only [airStrafe, if_pos hk, Vector3.setX, Vector3.setZ]
  · intro hc2 hv
    rw [Update_velocity_airborne inp t s2 hc2, hv]
  · rw [Update_velocity_airborne onlyD 0.1 _ rfl, airStrafe_onlyD, hb]
    norm_num [airborneWith, start]

/-- C5 at a concrete input: body velocity `(0,1,2)`, `KeyD` down, `t = 0.5`. -/
theorem air_tick_formula_witness :
    (Update onlyD 0.5 (airborneWith ⟨0, 1, 2⟩)).velocity.x
      = (airborneWith ⟨0, 1, 2⟩).velocity.x + (direction onlyD).x *
        min (maxSpeed - Real.sqrt ((airborneWith ⟨0, 1, 2⟩).velocity.x ^ 2
          + (airborneWith ⟨0, 1, 2⟩).velocity.z ^ 2)) airAcceleration * 0.5 ∧
    (Update onlyD 0.5 (airborneWith ⟨0, 1, 2⟩)).velocity.y = 1 :=
  have hd : direction onlyD ≠ Vector3.zero := by
    rw [direction_onlyD]
    intro h
    have := congrArg Vector3.x h
    norm_num [Vector3.zero] at this
  have h := air_tick_formula (airborneWith ⟨0, 1, 2⟩) start onlyD 0.5 rfl hd
  ⟨h.1, h.2.2.1⟩

/-- C6: for every airborne tick whose input direction is zero (no movement key held, or
opposing keys cancelling on both axes: `KeyD = KeyA` and `KeyS = KeyW`), every live body
velocity and every duration, the x and z components (and with them the whole linear velocity)
written back by `Update` are the ones read at the start of the tick. -/
theorem air_tick_no_input (s : State) (inp : Input) (t : ℝ) (hc : s.canJump = false) :
    (direction inp = Vector3.zero →
      (Update inp t s).velocity.x = s.velocity.x ∧ (Update inp t s).velocity.z = s.velocity.z ∧
      (Update inp t s).velocity = s.velocity) ∧
    (inp.keyD = inp.keyA → inp.keyS = inp.keyW → direction inp = Vector3.zero) := by
  constructor
  · intro hd
    have hk : ¬ (rightFactor inp ≠ 0 ∨ forwardFactor inp ≠ 0) := fun h =>
      (direction_ne_zero_iff inp).2 h hd
    rw [Update_velocity_airborne inp t s hc]
    simp only [airStrafe, if_neg hk, and_self]
  · intro h1 h2
    exact direction_eq_zero inp (by simp [rightFactor, h1]) (by simp [forwardFactor, h2])

/-- C6 at a concrete input: airborne with body velocity `(1,2,3)` and no key down. -/
theorem air_tick_no_input_witness :
    (Update noKeys 0.1 (airborneWith ⟨1, 2, 3⟩)).velocity.x = 1 ∧
    (Update noKeys 0.1 (airborneWith ⟨1, 2, 3⟩)).velocity.z = 3 :=
  have h := (air_tick_no_input (airborneWith ⟨1, 2, 3⟩) noKeys 0.1 rfl).1 direction_noKeys
  ⟨h.1, h.2.1⟩

/-- C7: for every airborne tick whose live body lateral speed `sqrt(vx^2 + vz^2)` equals
`maxSpeed` exactly, for every keys and every duration, the control budget is `0`, the
horizontal velocity is unchanged and the lateral speed after the tick is not greater than
`maxSpeed`. -/
theorem air_tick_at_maxSpeed (s : State) (inp : Input) (t : ℝ) (hc : s.canJump = false)
    (hs : Real.sqrt (s.velocity.x ^ 2 + s.velocity.z ^ 2) = maxSpeed) :
    maxAirControl s.velocity = 0 ∧
    (Update inp t s).velocity.x = s.velocity.x ∧ (Update inp t s).velocity.z = s.velocity.z ∧
    Real.sqrt ((Update inp t s).velocity.x ^ 2 + (Update inp t s).velocity.z ^ 2) ≤ maxSpeed := by
  have hb : maxAirControl s.velocity = 0 := by
    rw [maxAirControl, lateralSpeed_eq, hs, sub_self, airAcceleration_eq]
    norm_num
  have hv : (Update inp t s).velocity = s.velocity := by
    rw [Update_velocity_airborne inp t s hc]
    unfold airStrafe
    split_ifs
    · rw [hb]
      ext <;> simp [Vector3.setX, Vector3.setZ, Vector3.multiplyScalar]
    · rfl
  refine ⟨hb, by rw [hv], by rw [hv], ?_⟩
  rw [hv, hs]

/-- C7 at a concrete input: body velocity `(4,0,0)`, `KeyD` down. -/
theorem air_tick_at_maxSpeed_witness :
    maxAirControl (airborneWith ⟨4, 0, 0⟩).velocity = 0 ∧
    (Update onlyD 0.1 (airborneWith ⟨4, 0, 0⟩)).velocity.x = 4 :=
  have hs : Real.sqrt ((airborneWith ⟨4, 0, 0⟩).velocity.x ^ 2
      + (airborneWith ⟨4, 0, 0⟩).velocity.z ^ 2) = maxSpeed := by
    rw [← lateralSpeed_eq, maxSpeed_eq]
    exact lateralSpeed_of_sq _ 4 (by norm_num) (by norm_num [airborneWith, start])
  have h := air_tick_at_maxSpeed (airborneWith ⟨4, 0, 0⟩) onlyD 0.1 rfl hs
  ⟨h.1, h.2.1⟩

/-- C8, the code at the failing input: airborne with body velocity `(5,0,0)`, lateral speed
`5 > maxSpeed`, `KeyD` down and `t = 0.1`; the budget is `-1` and the x-velocity written back
is `4.9`, not `5`. -/
theorem air_tick_above_maxSpeed_changes :
    (airborneWith ⟨5, 0, 0⟩).canJump = false ∧
    direction onlyD ≠ Vector3.zero ∧
    maxSpeed < lateralSpeed (airborneWith ⟨5, 0, 0⟩).velocity ∧
    maxAirControl (airborneWith ⟨5, 0, 0⟩).velocity = -1 ∧
    (Update onlyD 0.1 (airborneWith ⟨5, 0, 0⟩)).velocity.x = 4.9 ∧
    (Update onlyD 0.1 (airborneWith ⟨5, 0, 0⟩)).velocity.x
      ≠ (airborneWith ⟨5, 0, 0⟩).velocity.x := by
  have h5 : lateralSpeed (airborneWith ⟨5, 0, 0⟩).velocity = 5 :=
    lateralSpeed_of_sq _ 5 (by norm_num) (by norm_num [airborneWith, start])
  have hb : maxAirControl (airborneWith ⟨5, 0, 0⟩).velocity = -1 := by
    rw [maxAirControl, h5, maxSpeed_eq, airAcceleration_eq]
    norm_num
  have hx : (Update onlyD 0.1 (airborneWith ⟨5, 0, 0⟩)).velocity.x = 4.9 := by
    rw [Update_velocity_airborne onlyD 0.1 _ rfl, airStrafe_onlyD, hb]
    norm_num [airborneWith, start]
  refine ⟨rfl, ?_, ?_, hb, hx, ?_⟩
  · rw [direction_onlyD]
    intro h
    have := congrArg Vector3.x h
    norm_num [Vector3.zero] at this
  · rw [h5, maxSpeed_eq]
    norm_num
  · rw [hx]
    norm_num [airborneWith, start]

theorem Vector3.normalize_length_le_one (v : Vector3) : v.normalize.length ≤ 1 := by
  simp only [Vector3.normalize, Vector3.divideScalar]
  rw [Vector3.length_multiplyScalar]
  have hl := v.length_nonneg
  unfold orOne
  split_ifs with h0
  · rw [h0]
    norm_num
  · have hpos : 0 < v.length := lt_of_le_of_ne hl (Ne.symm h0)
    rw [abs_of_pos (by positivity)]
    apply le_of_eq
    field_simp

theorem direction_sq_le_one (inp : Input) :
    (direction inp).x * (direction inp).x + (direction inp).z * (direction inp).z ≤ 1 := by
  have h1 : (direction inp).length ≤ 1 := Vector3.normalize_length_le_one _
  have h2 := (direction inp).length_mul_self
  have h3 := (direction inp).length_nonneg
  rw [direction_y] at h2
  nlinarith

/-- Triangle inequality for the lateral speed: a nudge `a ≥ 0` along a direction of length at
most one adds at most `a`. -/
theorem lateralSpeed_nudge_le (v d : Vector3) (a : ℝ) (ha : 0 ≤ a)
    (hd : d.x * d.x + d.z * d.z ≤ 1) :
    lateralSpeed ((v.setX (v.x + d.x * a)).setZ (v.z + d.z * a)) ≤ lateralSpeed v + a := by
  have hL := lateralSpeed_nonneg v
  have hsq : lateralSpeed v * lateralSpeed v = v.x * v.x + v.z * v.z := by
    have h := (Vector3.mk v.x 0 v.z).length_mul_self
    simpa [lateralSpeed] using h
  have hc : v.x * d.x + v.z * d.z ≤ lateralSpeed v := by
    by_contra hcon
    push_neg at hcon
    have h1 : (v.x * d.x + v.z * d.z) * (v.x * d.x + v.z * d.z)
        ≤ (v.x * v.x + v.z * v.z) * (d.x * d.x + d.z * d.z) := by
      nlinarith [mul_self_nonneg (v.x * d.z - v.z * d.x)]
    have h2 : (v.x * v.x + v.z * v.z) * (d.x * d.x + d.z * d.z) ≤ v.x * v.x + v.z * v.z := by
      nlinarith [mul_self_nonneg v.x, mul_self_nonneg v.z]
    nlinarith
  rw [lateralSpeed_eq, Real.sqrt_le_iff]
  refine ⟨by linarith, ?_⟩
  simp only [Vector3.setX, Vector3.setZ]
  nlinarith [mul_nonneg ha (sub_nonneg.2 hc), mul_nonneg (mul_self_nonneg a) (sub_nonneg.2 hd)]

/-- C9, the claim as stated fails: airborne with body velocity `(3,0,0)`, lateral speed
`3 ≤ maxSpeed`, `KeyD` down and a tick of `2` s, the lateral speed after the tick is `5`. -/
theorem air_tick_counterexample :
    (0 : ℝ) ≤ 2 ∧ (airborneWith ⟨3, 0, 0⟩).canJump = false ∧
    lateralSpeed (airborneWith ⟨3, 0, 0⟩).velocity ≤ maxSpeed ∧
    lateralSpeed (Update onlyD 2 (airborneWith ⟨3, 0, 0⟩)).velocity = 5 ∧
    ¬ (lateralSpeed (Update onlyD 2 (airborneWith ⟨3, 0, 0⟩)).velocity ≤ maxSpeed) := by
  have h3 : lateralSpeed (airborneWith ⟨3, 0, 0⟩).velocity = 3 :=
    lateralSpeed_of_sq _ 3 (by norm_num) (by norm_num [airborneWith, start])
  have hb : maxAirControl (airborneWith ⟨3, 0, 0⟩).velocity = 1 := by
    rw [maxAirControl, h3, maxSpeed_eq, airAcceleration_eq]
    norm_num
  have hv : (Update onlyD 2 (airborneWith ⟨3, 0, 0⟩)).velocity = ⟨5, 0, 0⟩ := by
    rw [Update_velocity_airborne onlyD 2 _ rfl, airStrafe_onlyD, hb]
    ext <;> norm_num [airborneWith, start, Vector3.zero]
  have h5 : lateralSpeed (Update onlyD 2 (airborneWith ⟨3, 0, 0⟩)).velocity = 5 := by
    rw [hv]
    exact lateralSpeed_of_sq _ 5 (by norm_num) (by norm_num)
  refine ⟨by norm_num, rfl, ?_, h5, ?_⟩
  · rw [h3, maxSpeed_eq]
    norm_num
  · rw [h5, maxSpeed_eq]
    norm_num

/-- C9, amended: for every airborne tick, every keys and every tick duration with
`0 ≤ t ≤ 1`, if the live body lateral speed before the tick is at most `maxSpeed` then it is
at most `maxSpeed` after the tick. -/
theorem air_tick_keeps_maxSpeed (s : State) (inp : Input) (t : ℝ) (hc : s.canJump = false)
    (h0 : 0 ≤ t) (h1 : t ≤ 1) (hs : lateralSpeed s.velocity ≤ maxSpeed) :
    lateralSpeed (Update inp t s).velocity ≤ maxSpeed := by
  rw [Update_velocity_airborne inp t s hc]
  unfold airStrafe
  split_ifs with hk
  · have hb0 : 0 ≤ maxAirControl s.velocity :=
      le_min (sub_nonneg.2 hs) (by norm_num [airAcceleration])
    have hb1 : maxAirControl s.velocity ≤ maxSpeed - lateralSpeed s.velocity := min_le_left _ _
    have ha : maxAirControl s.velocity * t ≤ maxAirControl s.velocity :=
      mul_le_of_le_one_right hb0 h1
    have hn := lateralSpeed_nudge_le s.velocity (direction inp) (maxAirControl s.velocity * t)
      (mul_nonneg hb0 h0) (direction_sq_le_one inp)
    simp only [Vector3.multiplyScalar]
    linarith
  · exact hs

/-- C9 amended, at a concrete input: body velocity `(3,0,0)`, `KeyD` down, a tick of `1` s. -/
theorem air_tick_keeps_maxSpeed_witness :
    lateralSpeed (Update onlyD 1 (airborneWith ⟨3, 0, 0⟩)).velocity ≤ maxSpeed :=
  air_tick_keeps_maxSpeed (airborneWith ⟨3, 0, 0⟩) onlyD 1 rfl (by norm_num) (by norm_num)
    (by
      rw [lateralSpeed_of_sq (airborneWith ⟨3, 0, 0⟩).velocity 3 (by norm_num)
        (by norm_num [airborneWith, start]), maxSpeed_eq]
      norm_num)

/-! ## C10: jump gating -/

theorem Update_canJump (inp : Input) (t : ℝ) (s : State) :
    (Update inp t s).canJump = (s.canJump && !inp.space) := by
  unfold Update
  cases hc : s.canJump <;> cases hj : inp.space <;> cases hm : s.motionState <;>
    simp [hc, hj, hm, Accelerate, Decelerate]

theorem Update_velocity_y (inp : Input) (t : ℝ) (s : State) :
    (Update inp t s).velocity.y
      = if (inp.space && s.canJump) = true then jumpVelocity else s.velocity.y := by
  unfold Update
  cases hc : s.canJump <;> cases hj : inp.space <;> cases hm : s.motionState <;>
    simp [hc, hj, hm, Vector3.setX, Vector3.setY, Vector3.setZ, airStrafe, Accelerate,
      Decelerate] <;>
    (try split_ifs) <;> rfl

theorem OnMouseMove_canJump (dx dy : ℝ) (s : State) :
    (OnMouseMove dx dy s).canJump = s.canJump := by
  unfold OnMouseMove
  split_ifs <;> rfl

theorem step_canJump_false (s : State) (e : Event) (he : e ≠ .setCanJump true)
    (hc : s.canJump = false) : (step s e).canJump = false := by
  cases e with
  | tick inp t => simp [step, Update_canJump, hc]
  | mouseMove dx dy => simpa [step, OnMouseMove_canJump] using hc
  | pointerlockChange l => exact hc
  | physicsStep v w m => exact hc
  | setCanJump b =>
    cases b with
    | true => exact absurd rfl he
    | false => rfl

theorem jumpCount_airborne (es : List Event) (s : State) (hc : s.canJump = false)
    (hes : ∀ e ∈ es, e ≠ .setCanJump true) : jumpCount s es = 0 := by
  induction es generalizing s with
  | nil => rfl
  | cons e es ih =>
    have he : e ≠ .setCanJump true := hes e (List.mem_cons_self _ _)
    have ih2 := ih (step s e) (step_canJump_false s e he hc)
      (fun x hx => hes x (List.mem_cons_of_mem _ hx))
    simp only [jumpCount, ih2, add_zero]
    cases e <;> simp [hc]

theorem jumpCount_le_one (es : List Event) (s : State)
    (hes : ∀ e ∈ es, e ≠ .setCanJump true) : jumpCount s es ≤ 1 := by
  induction es generalizing s with
  | nil => simp [jumpCount]
  | cons e es ih =>
    have hes2 : ∀ x ∈ es, x ≠ .setCanJump true := fun x hx => hes x (List.mem_cons_of_mem _ hx)
    have ih2 := ih (step s e) hes2
    cases e with
    | tick inp t =>
      simp only [jumpCount]
      by_cases hj : (inp.space && s.canJump) = true
      · have hcj : (step s (.tick inp t)).canJump = false := by
          simp only [Bool.and_eq_true] at hj
          simp [step, Update_canJump, hj.1]
        rw [if_pos hj, jumpCount_airborne es _ hcj hes2]
      · rw [if_neg hj]
        simpa using ih2
    | mouseMove dx dy => simpa [jumpCount] using ih2
    | pointerlockChange l => simpa [jumpCount] using ih2
    | physicsStep v w m => simpa [jumpCount] using ih2
    | setCanJump b => simpa [jumpCount] using ih2

/-- C10: jump gating. In a tick where the jump key is down and `canJump` holds at the start,
`Update` sets the body vertical velocity to `jumpVelocity` and clears `canJump`; in every
other tick it leaves the vertical velocity and `canJump` as they were; `Update` never sets
`canJump` to true; hence along any sequence of events in which nothing outside `Update` sets
`canJump` to true, the jump is applied at most once, however long the jump key stays down. -/
theorem jump_gating (s : State) (inp : Input) (t : ℝ) (es : List Event) :
    (inp.space = true ∧ s.canJump = true →
      (Update inp t s).velocity.y = jumpVelocity ∧ (Update inp t s).canJump = false) ∧
    (¬ (inp.space = true ∧ s.canJump = true) →
      (Update inp t s).velocity.y = s.velocity.y ∧ (Update inp t s).canJump = s.canJump) ∧
    ((Update inp t s).canJump = true → s.canJump = true) ∧
    ((∀ e ∈ es, e ≠ .setCanJump true) → jumpCount s es ≤ 1) := by
  refine ⟨?_, ?_, ?_, jumpCount_le_one es s⟩
  · rintro ⟨h1, h2⟩
    rw [Update_velocity_y, Update_canJump, h1, h2]
    simp
  · intro h
    rw [Update_velocity_y, Update_canJump]
    cases h1 : inp.space <;> cases h2 : s.canJump <;> simp_all
  · rw [Update_canJump]
    intro h
    simp only [Bool.and_eq_true] at h
    exact h.1

/-- C10 at a concrete input: the jump key held down over three ticks on the ground. -/
theorem jump_gating_witness :
    (Update onlySpace 0.1 grounded).velocity.y = jumpVelocity ∧
    (Update onlySpace 0.1 grounded).canJump = false ∧
    (Update onlySpace 0.1 start).velocity.y = start.velocity.y ∧
    jumpCount grounded [.tick onlySpace 0.1, .tick onlySpace 0.1, .tick onlySpace 0.1] ≤ 1 :=
  have h := jump_gating grounded onlySpace 0.1
    [.tick onlySpace 0.1, .tick onlySpace 0.1, .tick onlySpace 0.1]
  have h2 := jump_gating start onlySpace 0.1 []
  ⟨(h.1 ⟨rfl, rfl⟩).1, (h.1 ⟨rfl, rfl⟩).2,
   (h2.2.1 (by simp [start])).1,
   h.2.2.2 (by simp)⟩

/-! ## C11: mouse deltas and the orientation angles -/

theorem OnMouseMove_angles_y (dx dy : ℝ) (s : State) (hl : s.isLocked = true) :
    (OnMouseMove dx dy s).angles.y = s.angles.y - dx * mouseSpeed := by
  simp [OnMouseMove, hl, UpdateRotation]

theorem OnMouseMove_unlocked (dx dy : ℝ) (s : State) (hl : s.isLocked = false) :
    OnMouseMove dx dy s = s := by
  simp [OnMouseMove, hl]

/-- C11: for every state and every mouse delta `(dx, dy)`: with the pointer locked,
`OnMouseMove` stores the yaw `angles.y - dx*mouseSpeed`, whatever its size (no wrapping, no
bound), and the pitch `max(-π/2, min(π/2, angles.x - dy*mouseSpeed))`; with the pointer not
locked it changes nothing, so yaw, pitch, the entity orientation and the camera orientation
are what they were. -/
theorem mouse_move_angles (s : State) (dx dy : ℝ) :
    (s.isLocked = true →
      (OnMouseMove dx dy s).angles.y = s.angles.y - dx * mouseSpeed ∧
      (OnMouseMove dx dy s).angles.x
        = max (-Real.pi / 2) (min (Real.pi / 2) (s.angles.x - dy * mouseSpeed))) ∧
    (s.isLocked = false →
      OnMouseMove dx dy s = s ∧
      (OnMouseMove dx dy s).angles.y = s.angles.y ∧
      (OnMouseMove dx dy s).angles.x = s.angles.x ∧
      (OnMouseMove dx dy s).rotation = s.rotation ∧
      (OnMouseMove dx dy s).cameraQuaternion = s.cameraQuaternion) := by
  constructor
  · intro hl
    exact ⟨OnMouseMove_angles_y dx dy s hl, OnMouseMove_angles_x dx dy s hl⟩
  · intro hl
    rw [OnMouseMove_unlocked dx dy s hl]
    exact ⟨rfl, rfl, rfl, rfl, rfl⟩

/-- C11 at a concrete input: a delta of `-1000000` pixels takes the yaw from `0` to `2000`,
far beyond a full turn, while the pointer is locked; the same delta changes nothing when it
is not. -/
theorem mouse_move_angles_witness :
    (OnMouseMove (-1000000) 0 (lockedWith 0)).angles.y = 2000 ∧
    OnMouseMove (-1000000) 5 start = start :=
  ⟨by
    rw [((mouse_move_angles (lockedWith 0) (-1000000) 0).1 rfl).1]
    norm_num [lockedWith, start, mouseSpeed],
   ((mouse_move_angles start (-1000000) 5).2 rfl).1⟩

/-! ## C12: the input direction -/

theorem GetKeyDown_cases (b : Bool) : GetKeyDown b = 0 ∨ GetKeyDown b = 1 := by
  cases b <;> simp [GetKeyDown]

theorem Vector3.normalize_length (v : Vector3) (h : v ≠ Vector3.zero) :
    v.normalize.length = 1 := by
  simp only [Vector3.normalize, Vector3.divideScalar]
  rw [Vector3.length_multiplyScalar]
  have h0 : v.length ≠ 0 := fun hz => h ((v.length_eq_zero_iff).1 hz)
  have hpos : 0 < v.length := lt_of_le_of_ne v.length_nonneg (Ne.symm h0)
  rw [orOne, if_neg h0, abs_of_pos (by positivity)]
  field_simp

theorem direction_length (inp : Input) (h : rightFactor inp ≠ 0 ∨ forwardFactor inp ≠ 0) :
    (direction inp).length = 1 := by
  apply Vector3.normalize_length
  intro hz
  have hx := congrArg Vector3.x hz
  have hzz := congrArg Vector3.z hz
  simp only [Vector3.zero] at hx hzz
  rcases h with h | h
  · exact h hx
  · exact h hzz

/-- C12: for every combination of the keys, the direction computed by `Update` is the vector
`(D - A, 0, S - W)` (each key counting `1` when down, `0` otherwise) multiplied by
`1 / (length || 1)`; the divisor `length || 1` is never zero; the direction is exactly the
zero vector when both factors are `0` (in particular with no movement key down, or with
`KeyA = KeyD` and `KeyW = KeyS`), and otherwise it has length exactly `1`; its `y` is `0`. -/
theorem direction_normalised (inp : Input) :
    rightFactor inp = (if inp.keyD then 1 else 0) - (if inp.keyA then 1 else 0) ∧
    forwardFactor inp = (if inp.keyS then 1 else 0) - (if inp.keyW then 1 else 0) ∧
    direction inp = (Vector3.mk (rightFactor inp) 0 (forwardFactor inp)).multiplyScalar
      (1 / orOne (Vector3.mk (rightFactor inp) 0 (forwardFactor inp)).length) ∧
    orOne (Vector3.mk (rightFactor inp) 0 (forwardFactor inp)).length ≠ 0 ∧
    (rightFactor inp = 0 ∧ forwardFactor inp = 0 → direction inp = Vector3.zero) ∧
    (inp.keyA = inp.keyD ∧ inp.keyW = inp.keyS → direction inp = Vector3.zero) ∧
    (¬ (rightFactor inp = 0 ∧ forwardFactor inp = 0) → (direction inp).length = 1) ∧
    (direction inp).y = 0 := by
  refine ⟨rfl, rfl, ?_, orOne_ne_zero _, ?_, ?_, ?_, direction_y inp⟩
  · simp only [direction, Vector3.normalize, Vector3.divideScalar]
    norm_num
  · rintro ⟨h1, h2⟩
    exact direction_eq_zero inp h1 h2
  · rintro ⟨h1, h2⟩
    exact direction_eq_zero inp (by simp [rightFactor, h1]) (by simp [forwardFactor, h2])
  · intro h
    apply direction_length
    by_contra hcon
    push_neg at hcon
    exact h hcon

/-- C12 at concrete inputs: `KeyW` and `KeyS` together cancel to the zero vector; `KeyS` and
`KeyD` together give a direction of length `1`. -/
theorem direction_normalised_witness :
    direction keysWS = Vector3.zero ∧ (direction keysSD).length = 1 :=
  ⟨(direction_normalised keysWS).2.2.2.2.2.1 ⟨rfl, rfl⟩,
   (direction_normalised keysSD).2.2.2.2.2.2.1 (by
      intro h
      have := h.1
      norm_num [rightFactor, keysSD, GetKeyDown] at this)⟩

/-! ## C13 to C16: the yaw rotation, the two branches and the orientation -/

theorem setFromAxisAngle_yAxis (y : ℝ) :
    Quaternion.setFromAxisAngle yAxis y = yawRotation y := by
  ext <;> norm_num [Quaternion.setFromAxisAngle, yAxis, yawRotation]

theorem setFromAxisAngle_xAxis (p : ℝ) :
    Quaternion.setFromAxisAngle xAxis p = pitchRotation p := by
  ext <;> norm_num [Quaternion.setFromAxisAngle, xAxis, pitchRotation]

theorem cos_of_half (y : ℝ) : Real.cos y = Real.cos (y / 2) ^ 2 - Real.sin (y / 2) ^ 2 := by
  have h := Real.cos_two_mul' (y / 2)
  rwa [show 2 * (y / 2) = y by ring] at h

theorem sin_of_half (y : ℝ) : Real.sin y = 2 * Real.sin (y / 2) * Real.cos (y / 2) := by
  have h := Real.sin_two_mul (y / 2)
  rwa [show 2 * (y / 2) = y by ring] at h

/-- A vector rotated by the yaw quaternion of angle `y`: a plane rotation of `(x, z)`, the
`y` component kept. -/
theorem applyQuaternion_yawRotation (v : Vector3) (y : ℝ) :
    v.applyQuaternion (yawRotation y)
      = ⟨v.x * Real.cos y + v.z * Real.sin y, v.y, -v.x * Real.sin y + v.z * Real.cos y⟩ := by
  have h1 := Real.sin_sq_add_cos_sq (y / 2)
  simp only [Vector3.applyQuaternion, yawRotation, cos_of_half y, sin_of_half y]
  ext
  · simp only
    ring
  · simp only
    linear_combination v.y * h1
  · simp only
    ring

theorem Update_yaw (inp : Input) (t : ℝ) (s : State) : (Update inp t s).yaw = s.yaw := by
  unfold Update
  cases hc : s.canJump <;> cases hj : inp.space <;> cases hm : s.motionState <;>
    simp [hc, hj, hm, Accelerate, Decelerate]

/-- Body velocity written back by a grounded `Update`: the stored velocity of this tick
rotated by `this.yaw` on x and z, the vertical velocity as the jump block left it. -/
theorem Update_velocity_grounded (inp : Input) (t : ℝ) (s : State) (hc : s.canJump = true) :
    (Update inp t s).velocity
      = ⟨((Update inp t s).speed.applyQuaternion s.yaw).x,
         if inp.space = true then jumpVelocity else s.velocity.y,
         ((Update inp t s).speed.applyQuaternion s.yaw).z⟩ := by
  rw [Update_speed, if_pos hc]
  unfold Update
  cases hj : inp.space <;> cases hm : s.motionState <;>
    simp [hc, hj, hm, Accelerate, Decelerate, Vector3.setX, Vector3.setY, Vector3.setZ]

/-- C13: for every grounded tick and every yaw angle `y` (the quaternion `this.yaw` being the
one `UpdateRotation` computes for `y`), the horizontal velocity written into the body is the
stored velocity `(sx, sz)` after this tick's integration rotated about the vertical axis by
`y`: `x = sx*cos(y) + sz*sin(y)`, `z = -sx*sin(y) + sz*cos(y)`; the pitch does not enter
(`UpdateRotation` computes `this.yaw` from `angles.y` alone, and two grounded states with the
same stored velocity and yaw get the same x and z whatever their pitch), and the vertical
velocity stays what the jump block left: `jumpVelocity` if `Space` is down, else the one
read. -/
theorem ground_velocity_yaw (s s2 : State) (inp : Input) (t y : ℝ) (hc : s.canJump = true)
    (hy : s.yaw = Quaternion.setFromAxisAngle yAxis y) :
    (Update inp t s).velocity.x
      = (Update inp t s).speed.x * Real.cos y + (Update inp t s).speed.z * Real.sin y ∧
    (Update inp t s).velocity.z
      = -(Update inp t s).speed.x * Real.sin y + (Update inp t s).speed.z * Real.cos y ∧
    (Update inp t s).velocity.y = (if inp.space = true then jumpVelocity else s.velocity.y) ∧
    (UpdateRotation s2).yaw = Quaternion.setFromAxisAngle yAxis s2.angles.y ∧
    (s2.canJump = true → s2.speed = s.speed → s2.yaw = s.yaw →
      (Update inp t s2).velocity.x = (Update inp t s).velocity.x ∧
      (Update inp t s2).velocity.z = (Update inp t s).velocity.z) := by
  have hv := Update_velocity_grounded inp t s hc
  rw [hy, setFromAxisAngle_yAxis, applyQuaternion_yawRotation] at hv
  refine ⟨by rw [hv], by rw [hv], by rw [hv], rfl, ?_⟩
  intro hc2 hs2 hy2
  have hv2 := Update_velocity_grounded inp t s2 hc2
  have hsp : (Update inp t s2).speed = (Update inp t s).speed := by
    rw [Update_speed, Update_speed, if_pos hc, if_pos hc2]
    simp only [Accelerate, Decelerate, hs2]
  rw [hy2, hy, setFromAxisAngle_yAxis, applyQuaternion_yawRotation, hsp] at hv2
  rw [hv2, hv]
  exact ⟨rfl, rfl⟩

/-- C13 at a concrete input: a grounded tick with `KeyS` down, yaw `π/2`, pitch `1`, from
the stored velocity `(1,0,0)`, with `Space` up. -/
theorem ground_velocity_yaw_witness :
    (Update onlyS 0.01 (facing (Real.pi / 2) 1 ⟨1, 0, 0⟩ ⟨7, 8, 9⟩)).velocity.x
      = (Update onlyS 0.01 (facing (Real.pi / 2) 1 ⟨1, 0, 0⟩ ⟨7, 8, 9⟩)).speed.x
          * Real.cos (Real.pi / 2)
        + (Update onlyS 0.01 (facing (Real.pi / 2) 1 ⟨1, 0, 0⟩ ⟨7, 8, 9⟩)).speed.z
          * Real.sin (Real.pi / 2) ∧
    (Update onlyS 0.01 (facing (Real.pi / 2) 1 ⟨1, 0, 0⟩ ⟨7, 8, 9⟩)).velocity.y = 8 :=
  have h := ground_velocity_yaw (facing (Real.pi / 2) 1 ⟨1, 0, 0⟩ ⟨7, 8, 9⟩) start onlyS 0.01
    (Real.pi / 2) rfl rfl
  ⟨h.1, h.2.2.1⟩

theorem run_speed_airborne (es : List Event) (s : State) (hc : s.canJump = false)
    (hes : ∀ e ∈ es, e ≠ .setCanJump true) : (run s es).speed = s.speed := by
  induction es generalizing s with
  | nil => rfl
  | cons e es ih =>
    have he : e ≠ .setCanJump true := hes e (List.mem_cons_self _ _)
    have h1 : (step s e).speed = s.speed := by
      cases e with
      | tick inp t => simp [step, Update_speed, hc]
      | mouseMove dx dy => simp [step, OnMouseMove_speed]
      | pointerlockChange l => rfl
      | physicsStep v w m => rfl
      | setCanJump b => rfl
    have h2 := ih (step s e) (step_canJump_false s e he hc)
      (fun x hx => hes x (List.mem_cons_of_mem _ hx))
    simp only [run, List.foldl] at h2 ⊢
    rw [h2, h1]

/-- C14: an airborne tick leaves the stored planar velocity alone: for every airborne tick
(any keys, any body velocity, any duration) `this.speed` after `Update` equals `this.speed`
before it; and so it does over any sequence of events during which `canJump` is not set back
to true, so that the velocity stored at take-off is the one the first grounded tick after
landing decelerates and accelerates. -/
theorem air_tick_keeps_speed (s : State) (inp inp2 : Input) (t t2 : ℝ) (es : List Event)
    (hc : s.canJump = false) :
    (Update inp t s).speed = s.speed ∧
    ((∀ e ∈ es, e ≠ .setCanJump true) →
      (run s es).speed = s.speed ∧
      (run s (es ++ [.setCanJump true, .tick inp2 t2])).speed
        = groundSpec s.speed (direction inp2) t2) := by
  constructor
  · rw [Update_speed, hc]
    simp
  · intro hes
    have h := run_speed_airborne es s hc hes
    refine ⟨h, ?_⟩
    simp only [run, List.foldl_append, List.foldl, step] at h ⊢
    rw [Update_speed, if_pos rfl, ground_speed]
    simp only [h]

/-- C14 at a concrete input: airborne with stored velocity `(1,0,2)` and body velocity
`(0,5,0)`, two ticks with keys down and a physics step between them. -/
theorem air_tick_keeps_speed_witness :
    (Update onlyD 0.1 { airborneWith ⟨0, 5, 0⟩ with speed := ⟨1, 0, 2⟩ }).speed = ⟨1, 0, 2⟩ ∧
    (run { airborneWith ⟨0, 5, 0⟩ with speed := ⟨1, 0, 2⟩ }
      [.tick onlyD 0.1, .physicsStep ⟨1, 4, 0⟩ Vector3.zero none, .tick onlyW 0.1]).speed
      = ⟨1, 0, 2⟩ :=
  have h := air_tick_keeps_speed { airborneWith ⟨0, 5, 0⟩ with speed := ⟨1, 0, 2⟩ } onlyD noKeys
    0.1 0.1 [.tick onlyD 0.1, .physicsStep ⟨1, 4, 0⟩ Vector3.zero none, .tick onlyW 0.1] rfl
  ⟨h.1, (h.2 (by simp)).1⟩

/-- C15: the ground branch owns the body's horizontal velocity: two grounded ticks that
agree on the stored velocity, the yaw quaternion, the keys and the duration write the same x
and z velocity into the body, whatever the body's incoming velocity was in either of them. -/
theorem ground_tick_overwrites (s1 s2 : State) (inp : Input) (t : ℝ)
    (hc1 : s1.canJump = true) (hc2 : s2.canJump = true) (hs : s1.speed = s2.speed)
    (hy : s1.yaw = s2.yaw) :
    (Update inp t s1).velocity.x = (Update inp t s2).velocity.x ∧
    (Update inp t s1).velocity.z = (Update inp t s2).velocity.z := by
  have hsp : (Update inp t s1).speed = (Update inp t s2).speed := by
    rw [Update_speed, Update_speed, if_pos hc1, if_pos hc2]
    simp only [Accelerate, Decelerate, hs]
  rw [Update_velocity_grounded inp t s1 hc1, Update_velocity_grounded inp t s2 hc2, hsp, hy]
  exact ⟨rfl, rfl⟩

/-- C15 at a concrete input: the same grounded tick from body velocity `(0,0,0)` and from
`(100,3,-50)`, as after an impulse. -/
theorem ground_tick_overwrites_witness :
    (Update onlyD 0.01 (facing 1 0 ⟨1, 0, 0⟩ ⟨0, 0, 0⟩)).velocity.x
      = (Update onlyD 0.01 (facing 1 0 ⟨1, 0, 0⟩ ⟨100, 3, -50⟩)).velocity.x ∧
    (Update onlyD 0.01 (facing 1 0 ⟨1, 0, 0⟩ ⟨0, 0, 0⟩)).velocity.z
      = (Update onlyD 0.01 (facing 1 0 ⟨1, 0, 0⟩ ⟨100, 3, -50⟩)).velocity.z :=
  ground_tick_overwrites (facing 1 0 ⟨1, 0, 0⟩ ⟨0, 0, 0⟩) (facing 1 0 ⟨1, 0, 0⟩ ⟨100, 3, -50⟩)
    onlyD 0.01 rfl rfl rfl rfl

theorem yaw_mul_pitch_length (y p : ℝ) :
    (Quaternion.multiplyQuaternions (yawRotation y) (pitchRotation p)).length = 1 := by
  have h1 := Real.sin_sq_add_cos_sq (y / 2)
  have h2 := Real.sin_sq_add_cos_sq (p / 2)
  simp only [Quaternion.length, Quaternion.multiplyQuaternions, yawRotation, pitchRotation]
  have : (0 * Real.cos (p / 2) + Real.cos (y / 2) * Real.sin (p / 2) + Real.sin (y / 2) * 0
        - 0 * 0) * (0 * Real.cos (p / 2) + Real.cos (y / 2) * Real.sin (p / 2)
        + Real.sin (y / 2) * 0 - 0 * 0)
      + (Real.sin (y / 2) * Real.cos (p / 2) + Real.cos (y / 2) * 0 + 0 * Real.sin (p / 2)
        - 0 * 0) * (Real.sin (y / 2) * Real.cos (p / 2) + Real.cos (y / 2) * 0
        + 0 * Real.sin (p / 2) - 0 * 0)
      + (0 * Real.cos (p / 2) + Real.cos (y / 2) * 0 + 0 * 0
        - Real.sin (y / 2) * Real.sin (p / 2)) * (0 * Real.cos (p / 2) + Real.cos (y / 2) * 0
        + 0 * 0 - Real.sin (y / 2) * Real.sin (p / 2))
      + (Real.cos (y / 2) * Real.cos (p / 2) - 0 * Real.sin (p / 2) - Real.sin (y / 2) * 0
        - 0 * 0) * (Real.cos (y / 2) * Real.cos (p / 2) - 0 * Real.sin (p / 2)
        - Real.sin (y / 2) * 0 - 0 * 0) = 1 := by
    linear_combination (Real.sin (p / 2) ^ 2 + Real.cos (p / 2) ^ 2) * h1 + h2
  rw [this, Real.sqrt_one]

theorem Quaternion.normalize_of_length_one (q : Quaternion) (h : q.length = 1) :
    q.normalize = q := by
  simp only [Quaternion.normalize, h]
  norm_num

/-- C16: for every yaw angle `y = angles.y` and pitch angle `p = angles.x`, `UpdateRotation`
sets `this.yaw` to `(0, sin(y/2), 0, cos(y/2))`, `this.pitch` to `(sin(p/2), 0, 0, cos(p/2))`
and the entity orientation to their quaternion product with the yaw as the left factor, that
is `(cos(y/2)sin(p/2), sin(y/2)cos(p/2), -sin(y/2)sin(p/2), cos(y/2)cos(p/2))`; the result
has unit norm, and the camera orientation is set to the same quaternion. -/
theorem update_rotation_orientation (s : State) :
    (UpdateRotation s).yaw = yawRotation s.angles.y ∧
    (UpdateRotation s).pitch = pitchRotation s.angles.x ∧
    (UpdateRotation s).rotation
      = Quaternion.multiplyQuaternions (yawRotation s.angles.y) (pitchRotation s.angles.x) ∧
    (UpdateRotation s).rotation
      = ⟨Real.cos (s.angles.y / 2) * Real.sin (s.angles.x / 2),
         Real.sin (s.angles.y / 2) * Real.cos (s.angles.x / 2),
         -(Real.sin (s.angles.y / 2) * Real.sin (s.angles.x / 2)),
         Real.cos (s.angles.y / 2) * Real.cos (s.angles.x / 2)⟩ ∧
    (UpdateRotation s).rotation.length = 1 ∧
    (UpdateRotation s).cameraQuaternion = (UpdateRotation s).rotation := by
  have hr : (UpdateRotation s).rotation
      = Quaternion.multiplyQuaternions (yawRotation s.angles.y) (pitchRotation s.angles.x) := by
    simp only [UpdateRotation, setFromAxisAngle_yAxis, setFromAxisAngle_xAxis]
    exact Quaternion.normalize_of_length_one _ (yaw_mul_pitch_length _ _)
  refine ⟨setFromAxisAngle_yAxis _, setFromAxisAngle_xAxis _, hr, ?_, ?_, rfl⟩
  · rw [hr]
    ext <;> simp [Quaternion.multiplyQuaternions, yawRotation, pitchRotation]
  · rw [hr]
    exact yaw_mul_pitch_length _ _

/-! ## C17: `timeZeroToMax` -/

theorem timeZeroToMax_eq : timeZeroToMax = 2 / 25 := by norm_num [timeZeroToMax]

theorem groundedTicks_speed_succ (inp : Input) (dt : ℝ) (n : ℕ) (s : State) :
    (groundedTicks inp dt (n + 1) s).speed
      = groundSpec (groundedTicks inp dt n s).speed (direction inp) dt := by
  have hc : ({ groundedTicks inp dt n s with canJump := true } : State).canJump = true := rfl
  rw [groundedTicks_succ, Update_speed, if_pos hc, ground_speed]

theorem accelerateTicks_succ (d : Vector3) (dt : ℝ) (n : ℕ) (s : State) :
    accelerateTicks d dt (n + 1) s = Accelerate d acceleration dt (accelerateTicks d dt n s) := by
  simp only [accelerateTicks, Function.iterate_succ_apply']

/-- The clamp on a multiple `a ≥ 0` of a unit vector. -/
theorem clampSpec_along (d : Vector3) (a : ℝ) (hd : d.length = 1) (ha : 0 ≤ a) :
    clampSpec (d.multiplyScalar a) = d.multiplyScalar (min maxSpeed a) := by
  have hl : (d.multiplyScalar a).length = a := by
    rw [Vector3.length_multiplyScalar, hd, abs_of_nonneg ha, mul_one]
  unfold clampSpec
  rw [hl]
  split_ifs with h
  · rw [min_eq_right h]
  · have h4 : maxSpeed < a := lt_of_not_ge h
    have hpos : 0 < a := lt_of_le_of_lt (by norm_num [maxSpeed]) h4
    rw [min_eq_left (le_of_lt h4)]
    simp only [Vector3.multiplyScalar]
    ext <;> simp <;> field_simp <;> ring

/-- A grounded tick on a multiple `c` of the unit direction of the keys. -/
theorem groundSpec_along (d : Vector3) (c dt : ℝ) (hd : d.length = 1)
    (ha : 0 ≤ c * (1 + decceleration * dt) + acceleration * dt) :
    groundSpec (d.multiplyScalar c) d dt
      = d.multiplyScalar (min maxSpeed (c * (1 + decceleration * dt) + acceleration * dt)) := by
  unfold groundSpec
  rw [← clampSpec_along d _ hd ha]
  congr 1
  simp only [Vector3.multiplyScalar, Vector3.add]
  ext <;> simp <;> ring

theorem Vector3.zero_eq_multiplyScalar (d : Vector3) : Vector3.zero = d.multiplyScalar 0 := by
  simp [Vector3.multiplyScalar, Vector3.zero]

/-- Along `k ≤ n` grounded ticks of `timeZeroToMax / n` from rest, the stored velocity is a
multiple `c` of the unit direction with `c ≤ 4k/n`, strictly from the second tick on. -/
theorem groundedTicks_along (inp : Input) (n : ℕ) (s : State) (hs : s.speed = Vector3.zero)
    (hd : (direction inp).length = 1) (hn : 1 ≤ n) (k : ℕ) :
    ∃ c : ℝ, (groundedTicks inp (timeZeroToMax / n) k s).speed = (direction inp).multiplyScalar c ∧
      0 ≤ c ∧ c ≤ 4 * k / n ∧ (1 ≤ k → 0 < c) ∧ (2 ≤ k → c < 4 * k / n) := by
  have hn0 : (0 : ℝ) < n := by exact_mod_cast hn
  have hn1 : (1 : ℝ) ≤ n := by exact_mod_cast hn
  have hdec : 1 + decceleration * (timeZeroToMax / n) = 1 - 14 / 25 / n := by
    rw [decceleration_eq, timeZeroToMax_eq]
    field_simp
    ring
  have hacc : acceleration * (timeZeroToMax / n) = 4 / n := by
    rw [acceleration_eq, timeZeroToMax_eq]
    field_simp
    ring
  have hq : 14 / 25 / (n : ℝ) ≤ 14 / 25 := div_le_self (by norm_num) hn1
  have hq0 : 0 < 14 / 25 / (n : ℝ) := by positivity
  have h4n : 0 < 4 / (n : ℝ) := by positivity
  induction k with
  | zero =>
    refine ⟨0, ?_, le_refl _, by simp, by simp, by simp⟩
    simp only [groundedTicks, Function.iterate_zero, id]
    rw [hs]
    exact Vector3.zero_eq_multiplyScalar _
  | succ k ih =>
    obtain ⟨c, hc, hc0, hcle, hcpos, hclt⟩ := ih
    have ha : 0 < c * (1 - 14 / 25 / n) + 4 / n := by
      have : 0 ≤ c * (1 - 14 / 25 / n) := mul_nonneg hc0 (by linarith)
      linarith
    have hstep : (groundedTicks inp (timeZeroToMax / n) (k + 1) s).speed
        = (direction inp).multiplyScalar (min maxSpeed (c * (1 - 14 / 25 / n) + 4 / n)) := by
      rw [groundedTicks_speed_succ, hc, groundSpec_along _ _ _ hd (by rw [hdec, hacc]; exact le_of_lt ha),
        hdec, hacc]
    have hsucc : (4 : ℝ) * ((k + 1 : ℕ) : ℝ) / n = 4 * k / n + 4 / n := by
      push_cast
      ring
    have hle : c * (1 - 14 / 25 / n) + 4 / n ≤ 4 * k / n + 4 / n := by
      have : c * (14 / 25 / n) ≥ 0 := mul_nonneg hc0 (le_of_lt hq0)
      nlinarith
    refine ⟨_, hstep, le_min (by norm_num [maxSpeed]) (le_of_lt ha), ?_, ?_, ?_⟩
    · rw [hsucc]
      exact le_trans (min_le_right _ _) hle
    · intro _
      exact lt_min (by norm_num [maxSpeed]) ha
    · intro hk2
      have hk1 : 1 ≤ k := by omega
      have hcp := hcpos hk1
      rw [hsucc]
      have : 0 < c * (14 / 25 / n) := mul_pos hcp hq0
      calc min maxSpeed (c * (1 - 14 / 25 / n) + 4 / n)
          ≤ c * (1 - 14 / 25 / n) + 4 / n := min_le_right _ _
        _ < 4 * k / n + 4 / n := by nlinarith

/-- Along `k ≤ n` steps of `Accelerate` alone of `timeZeroToMax / n` from rest, the stored
velocity is `4k/n` times the unit direction. -/
theorem accelerateTicks_along (d : Vector3) (n : ℕ) (s : State) (hs : s.speed = Vector3.zero)
    (hd : d.length = 1) (hn : 1 ≤ n) (k : ℕ) (hk : k ≤ n) :
    (accelerateTicks d (timeZeroToMax / n) k s).speed = d.multiplyScalar (4 * k / n) := by
  have hn0 : (0 : ℝ) < n := by exact_mod_cast hn
  have hacc : acceleration * (timeZeroToMax / n) = 4 / n := by
    rw [acceleration_eq, timeZeroToMax_eq]
    field_simp
    ring
  induction k with
  | zero =>
    simp only [accelerateTicks, Function.iterate_zero, id]
    rw [hs]
    simp [Vector3.multiplyScalar, Vector3.zero]
  | succ k ih =>
    have hk1 : ((k + 1 : ℕ) : ℝ) ≤ n := by exact_mod_cast hk
    have hle : (4 : ℝ) * ((k + 1 : ℕ) : ℝ) / n ≤ maxSpeed := by
      rw [maxSpeed_eq, div_le_iff₀ hn0]
      linarith
    have h0 : (0 : ℝ) ≤ 4 * ((k + 1 : ℕ) : ℝ) / n := by positivity
    rw [accelerateTicks_succ]
    simp only [Accelerate]
    rw [ih (by omega), Vector3.clampLength_eq_clampSpec, hacc]
    have hv : ((d.multiplyScalar (4 * k / n)).add (d.multiplyScalar (4 / n)))
        = d.multiplyScalar (4 * ((k + 1 : ℕ) : ℝ) / n) := by
      simp only [Vector3.multiplyScalar, Vector3.add]
      ext <;> simp <;> ring
    rw [hv, clampSpec_along d _ hd h0, min_eq_right hle]

/-- C17, the claim as stated fails: from rest on the ground with `KeyD` down, after `n = 2`
ticks of `timeZeroToMax / 2 = 0.04` s the stored velocity is `(3.44, 0, 0)`, of magnitude
`3.44`, not `maxSpeed`. -/
theorem time_zero_to_max_counterexample :
    grounded.speed = Vector3.zero ∧ (direction onlyD).length = 1 ∧
    (groundedTicks onlyD (timeZeroToMax / 2) 2 grounded).speed = ⟨3.44, 0, 0⟩ ∧
    (groundedTicks onlyD (timeZeroToMax / 2) 2 grounded).speed.length = 3.44 ∧
    (groundedTicks onlyD (timeZeroToMax / 2) 2 grounded).speed.length ≠ maxSpeed := by
  have hd : (direction onlyD).length = 1 := by
    rw [direction_onlyD]
    exact Vector3.length_of_sq 1 0 0 1 (by norm_num) (by norm_num)
  have h0 : (groundedTicks onlyD (timeZeroToMax / 2) 0 grounded).speed
      = (direction onlyD).multiplyScalar 0 := Vector3.zero_eq_multiplyScalar _
  have hdec : 1 + decceleration * (timeZeroToMax / 2) = 18 / 25 := by
    rw [decceleration_eq, timeZeroToMax_eq]
    norm_num
  have hacc : acceleration * (timeZeroToMax / 2) = 2 := by
    rw [acceleration_eq, timeZeroToMax_eq]
    norm_num
  have h1 : (groundedTicks onlyD (timeZeroToMax / 2) 1 grounded).speed
      = (direction onlyD).multiplyScalar 2 := by
    rw [groundedTicks_speed_succ, h0, groundSpec_along _ _ _ hd (by rw [hdec, hacc]; norm_num),
      hdec, hacc, maxSpeed_eq]
    norm_num
  have h2 : (groundedTicks onlyD (timeZeroToMax / 2) 2 grounded).speed
      = (direction onlyD).multiplyScalar 3.44 := by
    rw [groundedTicks_speed_succ, h1, groundSpec_along _ _ _ hd (by rw [hdec, hacc]; norm_num),
      hdec, hacc, maxSpeed_eq]
    norm_num
  have hl : (groundedTicks onlyD (timeZeroToMax / 2) 2 grounded).speed.length = 3.44 := by
    rw [h2, Vector3.length_multiplyScalar, hd]
    norm_num [abs_of_pos]
  refine ⟨rfl, hd, ?_, hl, ?_⟩
  · rw [h2, direction_onlyD]
    ext <;> norm_num [Vector3.multiplyScalar]
  · rw [hl, maxSpeed_eq]
    norm_num

/-- C17, amended: `acceleration * timeZeroToMax = maxSpeed`, so from a zero stored velocity
and with a constant unit direction, `n ≥ 1` equal steps of `Accelerate` alone whose durations
total `timeZeroToMax` give a stored velocity of magnitude `maxSpeed`; a grounded tick also
decelerates first, so over grounded ticks the magnitude equals `maxSpeed` for `n = 1` (one
tick of `timeZeroToMax`) and is strictly below `maxSpeed` for every `n ≥ 2`. -/
theorem time_zero_to_max (s : State) (inp : Input) (d : Vector3) (n : ℕ)
    (hs : s.speed = Vector3.zero) (hi : direction inp ≠ Vector3.zero) (hd : d.length = 1)
    (hn : 1 ≤ n) :
    acceleration * timeZeroToMax = maxSpeed ∧
    (accelerateTicks d (timeZeroToMax / n) n s).speed.length = maxSpeed ∧
    (groundedTicks inp timeZeroToMax 1 s).speed.length = maxSpeed ∧
    (2 ≤ n → (groundedTicks inp (timeZeroToMax / n) n s).speed.length < maxSpeed) := by
  have hi1 : (direction inp).length = 1 := direction_length inp ((direction_ne_zero_iff inp).1 hi)
  have hn0 : (0 : ℝ) < n := by exact_mod_cast hn
  refine ⟨?_, ?_, ?_, ?_⟩
  · rw [acceleration_eq, timeZeroToMax_eq, maxSpeed_eq]
    norm_num
  · rw [accelerateTicks_along d n s hs hd hn n le_rfl, Vector3.length_multiplyScalar, hd,
      maxSpeed_eq]
    have : (4 : ℝ) * n / n = 4 := by field_simp
    rw [this]
    norm_num
  · have h0 : (groundedTicks inp timeZeroToMax 0 s).speed = (direction inp).multiplyScalar 0 := by
      simp only [groundedTicks, Function.iterate_zero, id]
      rw [hs]
      exact Vector3.zero_eq_multiplyScalar _
    have hacc : acceleration * timeZeroToMax = 4 := by
      rw [acceleration_eq, timeZeroToMax_eq]
      norm_num
    rw [groundedTicks_speed_succ, h0, groundSpec_along _ _ _ hi1 (by rw [hacc]; norm_num), hacc,
      Vector3.length_multiplyScalar, hi1, maxSpeed_eq]
    norm_num
  · intro h2
    obtain ⟨c, hc, hc0, _, _, hclt⟩ := groundedTicks_along inp n s hs hi1 hn n
    rw [hc, Vector3.length_multiplyScalar, hi1, abs_of_nonneg hc0, mul_one, maxSpeed_eq]
    have := hclt h2
    have h4 : (4 : ℝ) * n / n = 4 := by field_simp
    linarith

/-- C17 amended, at a concrete input: from rest with `KeyD` down, one grounded tick of
`timeZeroToMax`, and four grounded ticks of a quarter of it. -/
theorem time_zero_to_max_witness :
    (groundedTicks onlyD timeZeroToMax 1 grounded).speed.length = maxSpeed ∧
    (groundedTicks onlyD (timeZeroToMax / (4 : ℕ)) 4 grounded).speed.length < maxSpeed ∧
    (accelerateTicks ⟨1, 0, 0⟩ (timeZeroToMax / (4 : ℕ)) 4 grounded).speed.length = maxSpeed :=
  have hd : (Vector3.mk 1 0 0).length = 1 :=
    Vector3.length_of_sq 1 0 0 1 (by norm_num) (by norm_num)
  have hi : direction onlyD ≠ Vector3.zero := by
    rw [direction_onlyD]
    intro h
    have := congrArg Vector3.x h
    norm_num [Vector3.zero] at this
  have h := time_zero_to_max grounded onlyD ⟨1, 0, 0⟩ 4 rfl hi hd (by norm_num)
  ⟨h.2.2.1, h.2.2.2 (by norm_num), h.2.1⟩

/-! ## C18: the air nudge within the budget -/

/-- C18: for every airborne tick with `0 ≤ t ≤ 1`, a live body lateral speed of at most
`maxSpeed` before the tick and a unit input direction (some movement key not cancelled), the
nudge added to the body velocity has length `min(maxSpeed - lateralSpeed, airAcceleration)*t`,
which is at most `maxSpeed - lateralSpeed`, and the body's lateral speed after the tick is at
most `maxSpeed`. -/
theorem air_nudge_within_budget (s : State) (inp : Input) (t : ℝ) (hc : s.canJump = false)
    (h0 : 0 ≤ t) (h1 : t ≤ 1) (hs : lateralSpeed s.velocity ≤ maxSpeed)
    (hd : direction inp ≠ Vector3.zero) :
    (direction inp).length = 1 ∧
    (Update inp t s).velocity.x - s.velocity.x
      = ((direction inp).multiplyScalar (maxAirControl s.velocity * t)).x ∧
    (Update inp t s).velocity.z - s.velocity.z
      = ((direction inp).multiplyScalar (maxAirControl s.velocity * t)).z ∧
    ((direction inp).multiplyScalar (maxAirControl s.velocity * t)).length
      = min (maxSpeed - lateralSpeed s.velocity) airAcceleration * t ∧
    min (maxSpeed - lateralSpeed s.velocity) airAcceleration * t
      ≤ maxSpeed - lateralSpeed s.velocity ∧
    lateralSpeed (Update inp t s).velocity ≤ maxSpeed := by
  have hk := (direction_ne_zero_iff inp).1 hd
  have hl := direction_length inp hk
  have hb0 : 0 ≤ maxAirControl s.velocity :=
    le_min (sub_nonneg.2 hs) (by norm_num [airAcceleration])
  have hb1 : maxAirControl s.velocity ≤ maxSpeed - lateralSpeed s.velocity := min_le_left _ _
  have ha : maxAirControl s.velocity * t ≤ maxAirControl s.velocity :=
    mul_le_of_le_one_right hb0 h1
  have hv : (Update inp t s).velocity
      = (s.velocity.setX (s.velocity.x
          + ((direction inp).multiplyScalar (maxAirControl s.velocity * t)).x)).setZ
        (s.velocity.z + ((direction inp).multiplyScalar (maxAirControl s.velocity * t)).z) := by
    rw [Update_velocity_airborne inp t s hc]
    simp only [airStrafe, if_pos hk]
  refine ⟨hl, ?_, ?_, ?_, le_trans ha hb1, ?_⟩
  · rw [hv]
    simp [Vector3.setX, Vector3.setZ]
  · rw [hv]
    simp [Vector3.setX, Vector3.setZ]
  · rw [Vector3.length_multiplyScalar, hl, abs_of_nonneg (mul_nonneg hb0 h0), mul_one]
    rfl
  · rw [hv]
    have hn := lateralSpeed_nudge_le s.velocity (direction inp) (maxAirControl s.velocity * t)
      (mul_nonneg hb0 h0) (direction_sq_le_one inp)
    simp only [Vector3.multiplyScalar] at hn ⊢
    linarith

/-- C18 at a concrete input: airborne with body velocity `(0,2,3)`, `KeyS` and `KeyD` down, a
tick of `1` s. -/
theorem air_nudge_within_budget_witness :
    (direction keysSD).length = 1 ∧
    lateralSpeed (Update keysSD 1 (airborneWith ⟨0, 2, 3⟩)).velocity ≤ maxSpeed :=
  have hs : lateralSpeed (airborneWith ⟨0, 2, 3⟩).velocity ≤ maxSpeed := by
    rw [lateralSpeed_of_sq (airborneWith ⟨0, 2, 3⟩).velocity 3 (by norm_num)
      (by norm_num [airborneWith, start]), maxSpeed_eq]
    norm_num
  have hd : direction keysSD ≠ Vector3.zero :=
    (direction_ne_zero_iff keysSD).2 (Or.inl (by norm_num [rightFactor, keysSD, GetKeyDown]))
  have h := air_nudge_within_budget (airborneWith ⟨0, 2, 3⟩) keysSD 1 rfl (by norm_num)
    (by norm_num) hs hd
  ⟨h.1, h.2.2.2.2.2⟩

/-! ## C19: deceleration as a scaling -/

/-- C19: for every grounded tick with zero input direction, every stored velocity `v` with
`|v| ≤ maxSpeed` and every duration with `0 < dt ≤ -1/decceleration = 1/7`, the new stored
velocity is exactly `(1 + decceleration*dt) * v`, with a factor in `[0, 1)`: the direction of
motion is not reversed and the speed, `(1 + decceleration*dt) * |v|`, does not increase. -/
theorem idle_tick_scales (s : State) (inp : Input) (dt : ℝ) (hc : s.canJump = true)
    (hd : direction inp = Vector3.zero) (hv : s.speed.length ≤ maxSpeed) (h0 : 0 < dt)
    (h1 : dt ≤ -1 / decceleration) :
    -1 / decceleration = 1 / 7 ∧
    (Update inp dt s).speed = s.speed.multiplyScalar (1 + decceleration * dt) ∧
    0 ≤ 1 + decceleration * dt ∧ 1 + decceleration * dt < 1 ∧
    (Update inp dt s).speed.length = (1 + decceleration * dt) * s.speed.length ∧
    (Update inp dt s).speed.length ≤ s.speed.length := by
  have h7 : -1 / decceleration = 1 / 7 := by
    rw [decceleration_eq]
    norm_num
  rw [h7] at h1
  have hf0 : 0 ≤ 1 + decceleration * dt := by
    rw [decceleration_eq]
    linarith
  have hf1 : 1 + decceleration * dt < 1 := by
    rw [decceleration_eq]
    linarith
  have hl : (s.speed.multiplyScalar (1 + decceleration * dt)).length
      = (1 + decceleration * dt) * s.speed.length := by
    rw [Vector3.length_multiplyScalar, abs_of_nonneg hf0]
  have hle : (1 + decceleration * dt) * s.speed.length ≤ s.speed.length :=
    mul_le_of_le_one_left s.speed.length_nonneg (le_of_lt hf1)
  have hsp : (Update inp dt s).speed = s.speed.multiplyScalar (1 + decceleration * dt) := by
    rw [idle_speed inp dt s hd hc]
    apply Vector3.clampLength_of_le
    rw [hl]
    exact le_trans hle hv
  refine ⟨h7, hsp, hf0, hf1, ?_, ?_⟩
  · rw [hsp, hl]
  · rw [hsp, hl]
    exact hle

/-- C19 at a concrete input: stored velocity `(4,0,0)`, no key down, `dt = 0.1`. -/
theorem idle_tick_scales_witness :
    (Update noKeys 0.1 (groundedWith ⟨4, 0, 0⟩)).speed
      = (groundedWith ⟨4, 0, 0⟩).speed.multiplyScalar (1 + decceleration * 0.1) ∧
    (Update noKeys 0.1 (groundedWith ⟨4, 0, 0⟩)).speed.length
      ≤ (groundedWith ⟨4, 0, 0⟩).speed.length :=
  have hv : (groundedWith ⟨4, 0, 0⟩).speed.length ≤ maxSpeed := by
    have : (groundedWith ⟨4, 0, 0⟩).speed.length = 4 :=
      Vector3.length_of_sq 4 0 0 4 (by norm_num) (by norm_num)
    rw [this, maxSpeed_eq]
  have h := idle_tick_scales (groundedWith ⟨4, 0, 0⟩) noKeys 0.1 rfl direction_noKeys hv
    (by norm_num) (by rw [decceleration_eq]; norm_num)
  ⟨h.2.1, h.2.2.2.2.2⟩

/-! ## C20: the stored velocity stays horizontal -/

theorem clampLength_y (w : Vector3) (hi : ℝ) (h : w.y = 0) : (w.clampLength 0.0 hi).y = 0 := by
  rw [Vector3.clampLength_eq]
  simp [Vector3.multiplyScalar, h]

theorem step_speed_y (s : State) (e : Event) (h : s.speed.y = 0) : (step s e).speed.y = 0 := by
  cases e with
  | tick inp t =>
    simp only [step, Update_speed]
    split_ifs
    · simp only [Accelerate, Decelerate]
      apply clampLength_y
      simp [Vector3.add, Vector3.multiplyScalar, h, direction_y]
    · exact h
  | mouseMove dx dy => simpa [step, OnMouseMove_speed] using h
  | pointerlockChange l => exact h
  | physicsStep v w m => exact h
  | setCanJump b => exact h

theorem run_speed_y (es : List Event) (s : State) (h : s.speed.y = 0) :
    (run s es).speed.y = 0 := by
  induction es generalizing s with
  | nil => exact h
  | cons e es ih => exact ih (step s e) (step_speed_y s e h)

theorem step_yaw (s : State) (e : Event) (h : ∃ y, s.yaw = yawRotation y) :
    ∃ y, (step s e).yaw = yawRotation y := by
  cases e with
  | tick inp t =>
    obtain ⟨y, hy⟩ := h
    exact ⟨y, by simp only [step, Update_yaw, hy]⟩
  | mouseMove dx dy =>
    simp only [step, OnMouseMove]
    split_ifs
    · exact h
    · exact ⟨_, setFromAxisAngle_yAxis _⟩
  | pointerlockChange l => exact h
  | physicsStep v w m => exact h
  | setCanJump b => exact h

theorem run_yaw (es : List Event) (s : State) (h : ∃ y, s.yaw = yawRotation y) :
    ∃ y, (run s es).yaw = yawRotation y := by
  induction es generalizing s with
  | nil => exact h
  | cons e es ih => exact ih (step s e) (step_yaw s e h)

/-- Lateral speed of a horizontal vector rotated by a yaw quaternion: its length. -/
theorem lateralSpeed_applyQuaternion_yaw (v : Vector3) (y : ℝ) (h : v.y = 0) :
    lateralSpeed (v.applyQuaternion (yawRotation y)) = v.length := by
  have h1 := Real.sin_sq_add_cos_sq y
  rw [applyQuaternion_yawRotation]
  simp only [lateralSpeed, Vector3.length, h]
  congr 1
  linear_combination (v.x * v.x + v.z * v.z) * h1

/-- C20, the claim as stated fails on the doubles the code computes with: from rest, with the
yaw quaternion of the yaw angle `0`, after one grounded tick of `1/60` s with `KeyW` and
`KeyA` down and seven with `KeyW` alone, the stored velocity has `y = 0` and the velocity
written into the body has lateral speed `4 + 2^-50 > maxSpeed = 4`. -/
theorem stored_velocity_counterexample :
    (Dbl.groundTicks Dbl.frame60 strafeThenForward ⟨0, 0, 0⟩).y = 0 ∧
    Dbl.toReal Dbl.maxSpeed = maxSpeed ∧
    Dbl.maxSpeed < Dbl.lateralSpeed (Dbl.groundVelocity
      (Dbl.groundTicks Dbl.frame60 strafeThenForward ⟨0, 0, 0⟩) Dbl.Quaternion.identity
      ⟨0, 0, 0⟩) ∧
    Dbl.lateralSpeed (Dbl.groundVelocity
      (Dbl.groundTicks Dbl.frame60 strafeThenForward ⟨0, 0, 0⟩) Dbl.Quaternion.identity
      ⟨0, 0, 0⟩) = (2 ^ 52 + 1) * 2 ^ 1024 := by
  refine ⟨by decide!, ?_, by decide!, by decide!⟩
  have ha : (2 : ℝ) ^ 1074 ≠ 0 := pow_ne_zero _ two_ne_zero
  rw [Dbl.maxSpeed_acceleration_value.1, maxSpeed_eq, Dbl.toReal]
  simp only [Int.cast_mul, Int.cast_pow, Int.cast_ofNat]
  generalize (2 : ℝ) ^ 1074 = a at ha
  field_simp

/-- C20, amended: from a zero stored velocity (and a yaw quaternion that is the rotation of
some yaw angle, as `UpdateRotation` leaves it), after any sequence of events (ticks on the
ground and in the air, mouse events, physics steps, writes of `canJump`) the `y` component of
the stored velocity is `0`; and on every grounded tick after it the lateral speed
`sqrt(x^2 + z^2)` of the velocity written into the body equals the magnitude of the stored
velocity of that tick and exceeds `maxSpeed` by no more than rounding, being at most
`maxSpeed * (1 + 10^-12)`, whatever the yaw angle. -/
theorem stored_velocity_horizontal (s : State) (es : List Event) (inp : Input) (t y : ℝ)
    (hs : s.speed = Vector3.zero) (hy : s.yaw = Quaternion.setFromAxisAngle yAxis y) :
    (run s es).speed.y = 0 ∧
    (Update inp t (run s es)).speed.y = 0 ∧
    ((run s es).canJump = true →
      lateralSpeed (Update inp t (run s es)).velocity = (Update inp t (run s es)).speed.length ∧
      Real.sqrt ((Update inp t (run s es)).velocity.x ^ 2
          + (Update inp t (run s es)).velocity.z ^ 2)
        = (Update inp t (run s es)).speed.length ∧
      lateralSpeed (Update inp t (run s es)).velocity ≤ maxSpeed * (1 + roundingSlack)) := by
  have h0 : s.speed.y = 0 := by rw [hs]; rfl
  have hy0 : ∃ y, s.yaw = yawRotation y := ⟨y, by rw [hy, setFromAxisAngle_yAxis]⟩
  have h1 : (run s es).speed.y = 0 := run_speed_y es s h0
  have h2 : (Update inp t (run s es)).speed.y = 0 := step_speed_y (run s es) (.tick inp t) h1
  refine ⟨h1, h2, ?_⟩
  intro hc
  obtain ⟨y2, hy2⟩ := run_yaw es s hy0
  have hl : lateralSpeed (Update inp t (run s es)).velocity
      = (Update inp t (run s es)).speed.length := by
    rw [← lateralSpeed_applyQuaternion_yaw _ y2 h2, ← hy2,
      Update_velocity_grounded inp t (run s es) hc]
    rfl
  refine ⟨hl, ?_, ?_⟩
  · rw [← lateralSpeed_eq, hl]
  · rw [hl, Update_speed, if_pos hc]
    exact le_trans (Accelerate_speed_length _ _ _ _) maxSpeed_le_slack

/-- C20 amended, at a concrete input: from rest with yaw `1`, a grounded tick with `KeyD` down, a
locked-pointer mouse move, a jump into the air and an airborne tick, then landing; the next
grounded tick is the one observed. -/
theorem stored_velocity_horizontal_witness :
    (run (facing 1 0 Vector3.zero Vector3.zero)
      [.tick onlyD 0.01, .pointerlockChange true, .mouseMove 300 20, .tick onlySpace 0.01,
        .tick onlyW 0.01, .setCanJump true]).speed.y = 0 ∧
    lateralSpeed (Update keysSD 0.01 (run (facing 1 0 Vector3.zero Vector3.zero)
      [.tick onlyD 0.01, .pointerlockChange true, .mouseMove 300 20, .tick onlySpace 0.01,
        .tick onlyW 0.01, .setCanJump true])).velocity ≤ maxSpeed * (1 + roundingSlack) :=
  have h := stored_velocity_horizontal (facing 1 0 Vector3.zero Vector3.zero)
    [.tick onlyD 0.01, .pointerlockChange true, .mouseMove 300 20, .tick onlySpace 0.01,
      .tick onlyW 0.01, .setCanJump true] keysSD 0.01 1 rfl rfl
  ⟨h.1, (h.2.2 rfl).2.2⟩

end

end PlayerControls
